import Mathlib

/-!
Shallow embedding of the contract renewal-maintenance engine of the
TrueNFT renter, from src/modules/renter/contractor/contractmaintenance.go.
Currencies and block heights are modelled as `Nat` (Sia currencies are
unbounded non-negative big integers; all subtractions proved about happen
on paths where no underflow occurs, matching the Go code's checks).
Go maps are modelled as association lists with leftmost-binding lookup;
writing a key is modelled by consing, which has the same observable
lookup semantics as Go map assignment.
-/

namespace Contractor

/-- modules.ContractUtility: the GoodForUpload / GoodForRenew / Locked flags. -/
structure ContractUtility where
  goodForUpload : Bool
  goodForRenew : Bool
  locked : Bool
deriving DecidableEq

/-- modules.RenterContract metadata as used by contractmaintenance.go.
`dataStored` embeds contract.Transaction.FileContractRevisions[0].NewFileSize. -/
structure RenterContract where
  id : Nat
  hostPubKey : Nat
  startHeight : Nat
  endHeight : Nat
  renterFunds : Nat
  totalCost : Nat
  uploadSpending : Nat
  downloadSpending : Nat
  dataStored : Nat
  utility : ContractUtility
deriving DecidableEq

/-- The slice of modules.HostDBEntry consulted by the maintenance code:
filtered flag, pricing fields, max duration, and the externally-supplied
liveness and score information (`score = none` models a ScoreBreakdown error). -/
structure Host where
  filtered : Bool
  storagePrice : Nat
  uploadBandwidthPrice : Nat
  downloadBandwidthPrice : Nat
  contractPrice : Nat
  maxDuration : Nat
  offline : Bool
  score : Option Nat
deriving DecidableEq

/-- modules.Allowance: the fields read by contractmaintenance.go. -/
structure Allowance where
  funds : Nat
  hosts : Nat
  period : Nat
  renewWindow : Nat
deriving DecidableEq

/-- Modelled from the spec: the fixed constants of the contractor package and
its collaborators that are not under src/ (consts.go, modules.SectorSize,
modules.EstimatedFileContractTransactionSetSize, the fee oracle's estimate,
and the chain tax rate applied by types.Tax, here an exact rational
`taxNum/taxDen` per the spec's "apply the chain's mandatory tax rate").
The fractional thresholds minContractFundRenewalThreshold,
minContractFundUploadThreshold and fileContractMinimumFunding are kept as
exact rationals num/den. -/
structure Consts where
  sectorSize : Nat
  renewalThresholdNum : Nat
  renewalThresholdDen : Nat
  uploadThresholdNum : Nat
  uploadThresholdDen : Nat
  consecutiveRenewalsBeforeReplacement : Nat
  minimumFundingNum : Nat
  minimumFundingDen : Nat
  taxNum : Nat
  taxDen : Nat
  maxTxnFee : Nat
  estimatedFileContractTransactionSetSize : Nat
deriving DecidableEq

/-- fileContractRenewal: an instruction to renew a file contract. -/
structure FileContractRenewal where
  id : Nat
  amount : Nat
deriving DecidableEq

/-- The per-sector price used by both the utility classifier and the planner:
storage price for SectorSize bytes over the period plus upload and download
bandwidth price for SectorSize bytes (lines 333-338 and 853-858). -/
def sectorPrice (k : Consts) (period : Nat) (h : Host) : Nat :=
  let blockBytes := k.sectorSize * period
  let sectorStoragePrice := h.storagePrice * blockBytes
  let sectorUploadBandwidthPrice := h.uploadBandwidthPrice * k.sectorSize
  let sectorDownloadBandwidthPrice := h.downloadBandwidthPrice * k.sectorSize
  sectorStoragePrice + (sectorUploadBandwidthPrice + sectorDownloadBandwidthPrice)

/-- The percentRemaining test: renterFunds / totalCost < num / den as an exact
rational comparison (the Go code compares big.Rat-derived float64 values). -/
def belowFraction (num den renterFunds totalCost : Nat) : Bool :=
  renterFunds * den < num * totalCost

/-- The zero-value host produced by a failed hostdb lookup that ignores the
existence flag (line 817: host, _ := c.hdb.Host(...)). -/
def defaultHost : Host :=
  { filtered := false, storagePrice := 0, uploadBandwidthPrice := 0
    downloadBandwidthPrice := 0, contractPrice := 0, maxDuration := 0
    offline := false, score := none }

/-- Modelled from the spec: types.Tax (not under src/) applies the chain's
mandatory tax rate for the block height; an exact rate taxNum/taxDen with
floor division. -/
def tax (k : Consts) (amount : Nat) : Nat :=
  amount * k.taxNum / k.taxDen

/-- The renewal-history walk of managedEstimateRenewFundingRequirements
(lines 129-159): follow renewedFrom back from the contract, accumulating
upload/download spending of each predecessor found in oldContracts whose
start height is at least currentPeriod; stop at a missing predecessor, a
predecessor missing from oldContracts, a predecessor starting before the
current period, or when the fuel (10e3 in the source) runs out. -/
def walkSpending (rf : List (Nat × Nat)) (oc : List (Nat × RenterContract))
    (currentPeriod : Nat) : Nat → Nat → Nat × Nat → Nat × Nat
  | 0, _, acc => acc
  | fuel + 1, currentID, (u, d) =>
    match List.lookup currentID rf with
    | none => (u, d)
    | some prevID =>
      match List.lookup prevID oc with
      | none => (u, d)
      | some prev =>
        if prev.startHeight < currentPeriod then (u, d)
        else walkSpending rf oc currentPeriod fuel prevID
          (u + prev.uploadSpending, d + prev.downloadSpending)

/-- The list of predecessor contracts whose spending the walk accumulates,
defined by the same stopping rules as `walkSpending`; used to state what
the walk includes and excludes. -/
def includedPreds (rf : List (Nat × Nat)) (oc : List (Nat × RenterContract))
    (currentPeriod : Nat) : Nat → Nat → List RenterContract
  | 0, _ => []
  | fuel + 1, currentID =>
    match List.lookup currentID rf with
    | none => []
    | some prevID =>
      match List.lookup prevID oc with
      | none => []
      | some prev =>
        if prev.startHeight < currentPeriod then []
        else prev :: includedPreds rf oc currentPeriod fuel prevID

/-- The arithmetic of managedEstimateRenewFundingRequirements after the
history walk (lines 119-213): maintenance cost of the stored data, new
upload cost from the implied uploaded bytes (clamped at the stored bytes),
stable download cost, contract price, siafund tax, transaction fees, a 33%
volatility margin, and the policy-floor clamp. -/
def estimateCostBody (k : Consts) (host : Host) (allowance : Allowance)
    (prevUploadSpending prevDownloadSpending dataStored : Nat) : Nat :=
  let maintenanceCost := dataStored * allowance.period * host.storagePrice
  let prevUploadDataEstimate₀ :=
    if host.uploadBandwidthPrice = 0 then prevUploadSpending
    else prevUploadSpending / host.uploadBandwidthPrice
  let prevUploadDataEstimate :=
    if dataStored < prevUploadDataEstimate₀ then dataStored else prevUploadDataEstimate₀
  let newUploadsCost :=
    prevUploadSpending + prevUploadDataEstimate * allowance.period * host.storagePrice
  let newDownloadsCost := prevDownloadSpending
  let beforeSiafundFeesEstimate :=
    maintenanceCost + newUploadsCost + newDownloadsCost + host.contractPrice
  let afterSiafundFeesEstimate := tax k beforeSiafundFeesEstimate + beforeSiafundFeesEstimate
  let txnFees := k.maxTxnFee * k.estimatedFileContractTransactionSetSize
  let estimatedCost₀ := afterSiafundFeesEstimate + txnFees
  let estimatedCost₁ := estimatedCost₀ + estimatedCost₀ / 3
  let minimum := allowance.funds * k.minimumFundingNum / k.minimumFundingDen / allowance.hosts
  if estimatedCost₁ < minimum then minimum else estimatedCost₁

/-- managedEstimateRenewFundingRequirements (lines 109-214): estimate the
money a renewal needs. Returns none on the two error paths (host unknown,
host filtered); otherwise walks the renewal history for prior spending and
applies the cost arithmetic. `hdb` is the hostdb lookup; `rf`, `oc`,
`currentPeriod` are the contractor's renewal history and period boundary. -/
def managedEstimateRenewFundingRequirements (k : Consts) (hdb : Nat → Option Host)
    (rf : List (Nat × Nat)) (oc : List (Nat × RenterContract)) (currentPeriod : Nat)
    (contract : RenterContract) (allowance : Allowance) : Option Nat :=
  match hdb contract.hostPubKey with
  | none => none
  | some host =>
    if host.filtered then none
    else
      let prev := walkSpending rf oc currentPeriod 10000 contract.id
        (contract.uploadSpending, contract.downloadSpending)
      some (estimateCostBody k host allowance prev.1 prev.2 contract.dataStored)

/-- The per-contract body of managedMarkContractsUtility (lines 281-345):
start from the stored utility, reset both flags to true unless locked, then
apply the first matching demotion rule. Returns none when ScoreBreakdown
errors (which aborts the classification pass). `minScore` is the reference
minimum score computed once per pass. -/
def markContractUtility (k : Consts) (hdb : Nat → Option Host) (minScore : Nat)
    (blockHeight renewWindow period : Nat) (contract : RenterContract) :
    Option ContractUtility :=
  let u₀ := contract.utility
  let u := if ¬u₀.locked then
      { u₀ with goodForUpload := true, goodForRenew := true } else u₀
  match hdb contract.hostPubKey with
  | none => some { u with goodForUpload := false, goodForRenew := false }
  | some host =>
    if host.filtered then some { u with goodForUpload := false, goodForRenew := false }
    else
      match host.score with
      | none => none
      | some score =>
        if minScore ≠ 0 ∧ score < minScore then
          some { u with goodForUpload := false, goodForRenew := false }
        else if host.offline then
          some { u with goodForUpload := false, goodForRenew := false }
        else if contract.endHeight ≤ blockHeight + renewWindow then
          some { u with goodForUpload := false }
        else if contract.renterFunds < sectorPrice k period host * 3
            ∨ belowFraction k.uploadThresholdNum k.uploadThresholdDen
                contract.renterFunds contract.totalCost then
          some { u with goodForUpload := false }
        else some u

/-- The loop of managedMarkContractsUtility over the live contracts: apply
markContractUtility to each in order; on the first error abort, leaving that
contract and the rest untouched (the Go loop returns early, with earlier
utilities already applied). Returns the updated list and a success flag. -/
def classifyAll (k : Consts) (hdb : Nat → Option Host) (minScore : Nat)
    (blockHeight renewWindow period : Nat) :
    List RenterContract → List RenterContract × Bool
  | [] => ([], true)
  | c :: cs =>
    match markContractUtility k hdb minScore blockHeight renewWindow period c with
    | none => (c :: cs, false)
    | some u =>
      let rest := classifyAll k hdb minScore blockHeight renewWindow period cs
      ({ c with utility := u } :: rest.1, rest.2)

/-- The contractor's mutable state touched by contractmaintenance.go: the
live contract set (staticContracts), the renewal-history maps, the archive
of superseded contracts, the pubkey index, the consecutive-failure counters,
and a counter of saveSync calls standing in for persistence. -/
structure ContractorState where
  contracts : List RenterContract
  oldContracts : List (Nat × RenterContract)
  renewedFrom : List (Nat × Nat)
  renewedTo : List (Nat × Nat)
  pubKeysToContractID : List (Nat × Nat)
  numFailedRenews : List (Nat × Nat)
  saveCount : Nat
deriving DecidableEq

/-- staticContracts.View / Acquire: find the live contract with this id. -/
def viewContract (cs : List RenterContract) (id : Nat) : Option RenterContract :=
  cs.find? (fun c => c.id == id)

/-- UpdateUtility on the acquired contract with this id (in-place mutation
of the live set). -/
def setUtility (cs : List RenterContract) (id : Nat) (u : ContractUtility) :
    List RenterContract :=
  cs.map (fun c => if c.id == id then { c with utility := u } else c)

/-- staticContracts.Delete: remove the contract with this id from the live set. -/
def deleteContract (cs : List RenterContract) (id : Nat) : List RenterContract :=
  cs.filter (fun c => ¬c.id == id)

/-- c.numFailedRenews[id]++ with the Go map zero-value default. -/
def bumpFailedRenews (m : List (Nat × Nat)) (id : Nat) : List (Nat × Nat) :=
  (id, (List.lookup id m).getD 0 + 1) :: m

/-- The outcome of the managedRenew negotiation (line 648), abstracting the
network exchange: some nc means a new signed contract nc came back, none
means the negotiation failed, with `hostFault` the modules.IsHostsFault
classification of the failure. -/
structure RenewOutcome where
  newContract : Option RenterContract
  hostFault : Bool
deriving DecidableEq

/-- managedRenewContract (lines 585-732): renew one contract per the renew
instruction. Returns (fundsSpent, new state, errored). On negotiation
success the new contract enters the live set (the insertion performed by
proto ContractSet.Renew, which is not under src/, modelled from the spec)
with utility GoodForUpload and GoodForRenew, the old contract is demoted to
locked, the history maps are linked, the old metadata is archived, the
contractor is saved and the old contract is deleted. On failure the
consecutive-failure counter is bumped when the host is at fault, and the
contract is demoted to locked exactly when the counter was present, the
height is past the renew-window midpoint and the counter reached the
replacement threshold. -/
def managedRenewContract (k : Consts) (st : ContractorState)
    (r : FileContractRenewal) (allowance : Allowance) (blockHeight : Nat)
    (out : RenewOutcome) : Nat × ContractorState × Bool :=
  match viewContract st.contracts r.id with
  | none => (0, st, true)
  | some oldContract =>
    if ¬oldContract.utility.goodForRenew then (0, st, true)
    else
      match out.newContract with
      | none =>
        let nfr := if out.hostFault then bumpFailedRenews st.numFailedRenews r.id
          else st.numFailedRenews
        let numRenews := (List.lookup r.id nfr).getD 0
        let failedBefore := (List.lookup r.id nfr).isSome
        let secondHalfOfWindow := oldContract.endHeight ≤ blockHeight + allowance.renewWindow / 2
        let replace := k.consecutiveRenewalsBeforeReplacement ≤ numRenews
        if failedBefore ∧ secondHalfOfWindow ∧ replace then
          let demoted : ContractUtility :=
            { goodForUpload := false, goodForRenew := false, locked := true }
          (0, { st with contracts := setUtility st.contracts r.id demoted
                        numFailedRenews := nfr }, true)
        else (0, { st with numFailedRenews := nfr }, true)
      | some nc =>
        let goodUtility : ContractUtility :=
          { goodForUpload := true, goodForRenew := true, locked := false }
        let demoted : ContractUtility :=
          { goodForUpload := false, goodForRenew := false, locked := true }
        let contracts₁ := nc :: st.contracts
        let contracts₂ := setUtility contracts₁ nc.id goodUtility
        let contracts₃ := setUtility contracts₂ r.id demoted
        (r.amount,
         { st with
           contracts := deleteContract contracts₃ r.id
           pubKeysToContractID := (nc.hostPubKey, nc.id) :: st.pubKeysToContractID
           renewedFrom := (nc.id, r.id) :: st.renewedFrom
           renewedTo := (r.id, nc.id) :: st.renewedTo
           oldContracts := (r.id, { oldContract with utility := demoted }) :: st.oldContracts
           saveCount := st.saveCount + 1 },
         false)

/-- One iteration of the managedCheckForDuplicates loop (lines 42-102): the
accumulator carries the contractor state and the loop-local pubkeys map. A
contract whose host key was already seen is paired against the recorded
contract; the one with the later start height is kept, the other is linked
as its predecessor, archived, and deleted. -/
def dupStep (acc : ContractorState × List (Nat × Nat)) (contract : RenterContract) :
    ContractorState × List (Nat × Nat) :=
  let st := acc.1
  let pubkeys := acc.2
  match List.lookup contract.hostPubKey pubkeys with
  | none => (st, (contract.hostPubKey, contract.id) :: pubkeys)
  | some id =>
    match viewContract st.contracts id with
    | none => (st, pubkeys)
    | some rc =>
      let pair := if contract.startHeight ≤ rc.startHeight then (rc, contract)
        else (contract, rc)
      let newContract := pair.1
      let oldContract := pair.2
      match viewContract st.contracts oldContract.id with
      | none => (st, (contract.hostPubKey, newContract.id) :: pubkeys)
      | some oldSC =>
        ({ st with
           renewedFrom := (newContract.id, oldContract.id) :: st.renewedFrom
           renewedTo := (oldContract.id, newContract.id) :: st.renewedTo
           oldContracts := (oldContract.id, oldSC) :: st.oldContracts
           pubKeysToContractID := (newContract.hostPubKey, newContract.id) :: st.pubKeysToContractID
           saveCount := st.saveCount + 1
           contracts := deleteContract st.contracts oldContract.id },
         (contract.hostPubKey, newContract.id) :: pubkeys)

/-- managedCheckForDuplicates (lines 38-103): fold dupStep over a snapshot
of the live contract set. -/
def managedCheckForDuplicates (st : ContractorState) : ContractorState :=
  (st.contracts.foldl dupStep (st, [])).1

/-- The planner's verdict on one contract. -/
inductive PlanAction where
  | renew (amount : Nat)
  | refresh (amount : Nat)
  | skip
deriving DecidableEq

/-- The per-contract planning decision of threadedContractMaintenance
(lines 813-881): skip filtered hosts and contracts that are missing or not
GoodForRenew; inside the renew window, renew with the estimator's amount or
skip on estimation error; otherwise refresh with twice the total cost when
the contract is empty (fewer than 3 sector-equivalents remaining, or
remaining fraction below minContractFundRenewalThreshold). `utilityOf` is
managedContractUtility and `estimate` the funding estimator. -/
def planContract (k : Consts) (hdb : Nat → Option Host)
    (utilityOf : Nat → Option ContractUtility)
    (estimate : RenterContract → Option Nat)
    (blockHeight : Nat) (allowance : Allowance)
    (contract : RenterContract) : PlanAction :=
  let host := (hdb contract.hostPubKey).getD defaultHost
  if host.filtered then .skip
  else
    match utilityOf contract.id with
    | none => .skip
    | some utility =>
      if ¬utility.goodForRenew then .skip
      else if contract.endHeight ≤ blockHeight + allowance.renewWindow then
        match estimate contract with
        | none => .skip
        | some renewAmount => .renew renewAmount
      else if contract.renterFunds < sectorPrice k allowance.period host * 3
          ∨ belowFraction k.renewalThresholdNum k.renewalThresholdDen
              contract.renterFunds contract.totalCost then
        .refresh (contract.totalCost * 2)
      else .skip

/-- The planning loop: build the renewSet and refreshSet by classifying
every live contract, in order. -/
def buildSets (k : Consts) (hdb : Nat → Option Host)
    (utilityOf : Nat → Option ContractUtility)
    (estimate : RenterContract → Option Nat)
    (blockHeight : Nat) (allowance : Allowance) :
    List RenterContract → List FileContractRenewal × List FileContractRenewal
  | [] => ([], [])
  | c :: cs =>
    let rest := buildSets k hdb utilityOf estimate blockHeight allowance cs
    match planContract k hdb utilityOf estimate blockHeight allowance c with
    | .renew a => (⟨c.id, a⟩ :: rest.1, rest.2)
    | .refresh a => (rest.1, ⟨c.id, a⟩ :: rest.2)
    | .skip => rest

/-- One record of the budgeted-execution trace: which phase attempted the
item, its id, and the funds actually spent on it. -/
structure ExecEntry where
  isRenewPhase : Bool
  id : Nat
  spent : Nat
deriving DecidableEq

/-- One budgeted loop of threadedContractMaintenance (lines 922-954 for the
renewSet, 955-985 for the refreshSet): walk the work list in order; an item
whose amount exceeds the remaining funds is skipped without being attempted
(and without an interrupt check); otherwise it is attempted, its actual
spend (`attemptSpend`, 0 or the full amount per managedRenewContract) is
deducted, and the interrupt/stop channels are polled (`stopAfter`).
Returns (remaining funds, attempted trace, considered ids, interrupted). -/
def runRenewalList (attemptSpend : FileContractRenewal → Nat)
    (stopAfter : FileContractRenewal → Bool) (isRenewPhase : Bool) :
    List FileContractRenewal → Nat → Nat × List ExecEntry × List Nat × Bool
  | [], funds => (funds, [], [], false)
  | r :: rs, funds =>
    if funds < r.amount then
      let rest := runRenewalList attemptSpend stopAfter isRenewPhase rs funds
      (rest.1, rest.2.1, r.id :: rest.2.2.1, rest.2.2.2)
    else
      let spent := attemptSpend r
      let funds₁ := funds - spent
      if stopAfter r then (funds₁, [⟨isRenewPhase, r.id, spent⟩], [r.id], true)
      else
        let rest := runRenewalList attemptSpend stopAfter isRenewPhase rs funds₁
        (rest.1, ⟨isRenewPhase, r.id, spent⟩ :: rest.2.1, r.id :: rest.2.2.1, rest.2.2.2)

/-- The budgeted-execution phase (lines 908-985): compute the remaining
allowance funds (zero on underflow), run the renewSet, and, unless
interrupted, run the refreshSet on what is left. Returns the final funds
and the concatenated attempt trace. -/
def runBudgetedExecution (attemptSpend : FileContractRenewal → Nat)
    (stopAfter : FileContractRenewal → Bool)
    (renewSet refreshSet : List FileContractRenewal)
    (allowanceFunds totalAllocated : Nat) : Nat × List ExecEntry :=
  let fundsRemaining := if totalAllocated < allowanceFunds
    then allowanceFunds - totalAllocated else 0
  let first := runRenewalList attemptSpend stopAfter true renewSet fundsRemaining
  if first.2.2.2 then (first.1, first.2.1)
  else
    let second := runRenewalList attemptSpend stopAfter false refreshSet first.1
    (second.1, first.2.1 ++ second.2.1)

/-- Total funds spent along a trace. -/
def traceSpent (t : List ExecEntry) : Nat :=
  (t.map ExecEntry.spent).sum

/-- managedNewContract (lines 361-443): negotiate an initial contract with
a host. `negotiated` abstracts the FormContract network exchange (some nc =
a signed contract came back). Returns
(fundsSpent, formed contract, state, errored, txnDropped). After a
successful negotiation, if the pubkey index already holds an entry for the
host the transaction is dropped and an error is returned, yet fundsSpent is
the full contractFunding (lines 427-436). -/
def managedNewContract (st : ContractorState) (host : Host)
    (contractFunding : Nat) (maxStoragePrice period : Nat)
    (negotiated : Option RenterContract) :
    Nat × Option RenterContract × ContractorState × Bool × Bool :=
  if maxStoragePrice < host.storagePrice then (0, none, st, true, false)
  else if host.maxDuration < period then (0, none, st, true, false)
  else
    match negotiated with
    | none => (0, none, st, true, true)
    | some contract =>
      if (List.lookup contract.hostPubKey st.pubKeysToContractID).isSome then
        (contractFunding, none, st, true, true)
      else
        (contractFunding, some contract,
         { st with pubKeysToContractID :=
             (contract.hostPubKey, contract.id) :: st.pubKeysToContractID },
         false, false)

/-- One iteration of the gap-filling formation loop of
threadedContractMaintenance (lines 1034-1089): stop if the remaining funds
cannot cover the initial contract funds; otherwise call managedNewContract
and, on error, continue WITHOUT deducting the returned fundsSpent (the
`continue` at line 1056 runs before the subtraction at line 1057); on
success deduct, insert the contract with good utility, and save. Returns
the updated (fundsRemaining, state). -/
def formContractsStep (st : ContractorState) (fundsRemaining : Nat)
    (initialContractFunds : Nat) (host : Host)
    (maxStoragePrice period : Nat) (negotiated : Option RenterContract) :
    Nat × ContractorState :=
  if fundsRemaining < initialContractFunds then (fundsRemaining, st)
  else
    let res := managedNewContract st host initialContractFunds maxStoragePrice
      period negotiated
    let fundsSpent := res.1
    let newContract := res.2.1
    let st₁ := res.2.2.1
    let errored := res.2.2.2.1
    if errored then (fundsRemaining, st₁)
    else
      match newContract with
      | none => (fundsRemaining, st₁)
      | some nc =>
        let goodUtility : ContractUtility :=
          { goodForUpload := true, goodForRenew := true, locked := false }
        (fundsRemaining - fundsSpent,
         { st₁ with contracts := setUtility (nc :: st₁.contracts) nc.id goodUtility
                    saveCount := st₁.saveCount + 1 })

/-- One utility-touching operation of the maintenance engine, for stating
the Locked ratchet across runs: a classification pass, one renewal/refresh
attempt, a duplicate-contract cleanup, or one new-contract formation. -/
inductive EngineOp where
  | classify (k : Consts) (hdb : Nat → Option Host)
      (minScore blockHeight renewWindow period : Nat)
  | renewAttempt (k : Consts) (r : FileContractRenewal) (allowance : Allowance)
      (blockHeight : Nat) (out : RenewOutcome)
  | checkDuplicates
  | formContract (fundsRemaining initialContractFunds : Nat) (host : Host)
      (maxStoragePrice period : Nat) (negotiated : Option RenterContract)

/-- The state transition of one engine operation. -/
def engineStep (st : ContractorState) : EngineOp → ContractorState
  | .classify k hdb minScore blockHeight renewWindow period =>
    { st with contracts :=
        (classifyAll k hdb minScore blockHeight renewWindow period st.contracts).1 }
  | .renewAttempt k r allowance blockHeight out =>
    (managedRenewContract k st r allowance blockHeight out).2.1
  | .checkDuplicates => managedCheckForDuplicates st
  | .formContract fundsRemaining initialContractFunds host maxStoragePrice period negotiated =>
    (formContractsStep st fundsRemaining initialContractFunds host maxStoragePrice
      period negotiated).2

/-- Freshness side conditions that hold of the real engine: a contract id
produced by negotiation is new, so it does not collide with a live id (and
a renewal's new contract differs from the contract it replaces). -/
def wfOp (st : ContractorState) : EngineOp → Bool
  | .renewAttempt _ r _ _ out =>
    match out.newContract with
    | none => true
    | some nc => (viewContract st.contracts nc.id == none) && (nc.id != r.id)
  | .formContract _ _ _ _ _ negotiated =>
    match negotiated with
    | none => true
    | some nc => viewContract st.contracts nc.id == none
  | _ => true

/-- A sequence of engine operations, each well formed in the state where it
runs. -/
def wfTrace (st : ContractorState) : List EngineOp → Bool
  | [] => true
  | op :: ops => wfOp st op && wfTrace (engineStep st op) ops

/-- Run a sequence of engine operations. -/
def engineRun (st : ContractorState) (ops : List EngineOp) : ContractorState :=
  ops.foldl engineStep st

/-- The contract with this id stays in the live set at every point of the
run (the claim's "short of deleting the contract"). -/
def survivesRun (id : Nat) (st : ContractorState) : List EngineOp → Bool
  | [] => (viewContract st.contracts id).isSome
  | op :: ops => (viewContract st.contracts id).isSome
      && survivesRun id (engineStep st op) ops

/-- Utility can only get worse: locked stays locked and neither good flag
turns on. -/
def utilityRatchet (u₀ u₁ : ContractUtility) : Prop :=
  u₁.locked = true ∧ (u₁.goodForUpload = true → u₀.goodForUpload = true)
    ∧ (u₁.goodForRenew = true → u₀.goodForRenew = true)

instance (u₀ u₁ : ContractUtility) : Decidable (utilityRatchet u₀ u₁) := by
  unfold utilityRatchet
  infer_instance

theorem if_lt_self_eq_min (a b : Nat) : (if a < b then a else b) = min a b := by
  split <;> omega

theorem if_lt_other_eq_max (a b : Nat) : (if a < b then b else a) = max b a := by
  split <;> omega

theorem estimateCostBody_floor (k : Consts) (host : Host) (allowance : Allowance)
    (pu pd d : Nat) :
    allowance.funds * k.minimumFundingNum / k.minimumFundingDen / allowance.hosts
      ≤ estimateCostBody k host allowance pu pd d := by
  simp only [estimateCostBody, tax, if_lt_self_eq_min, if_lt_other_eq_max]
  exact le_max_left _ _

theorem estimateCostBody_mono (k : Consts) (host : Host) (allowance : Allowance)
    (pu pd : Nat) {d₁ d₂ : Nat} (hd : d₁ ≤ d₂) :
    estimateCostBody k host allowance pu pd d₁
      ≤ estimateCostBody k host allowance pu pd d₂ := by
  simp only [estimateCostBody, tax, if_lt_self_eq_min, if_lt_other_eq_max]
  gcongr

theorem managedEstimate_eq (k : Consts) (hdb : Nat → Option Host)
    (rf : List (Nat × Nat)) (oc : List (Nat × RenterContract)) (currentPeriod : Nat)
    (contract : RenterContract) (allowance : Allowance) (host : Host)
    (hh : hdb contract.hostPubKey = some host) (hf : host.filtered = false) :
    managedEstimateRenewFundingRequirements k hdb rf oc currentPeriod contract allowance
      = some (estimateCostBody k host allowance
          (walkSpending rf oc currentPeriod 10000 contract.id
            (contract.uploadSpending, contract.downloadSpending)).1
          (walkSpending rf oc currentPeriod 10000 contract.id
            (contract.uploadSpending, contract.downloadSpending)).2
          contract.dataStored) := by
  unfold managedEstimateRenewFundingRequirements
  rw [hh]
  simp [hf]

/-- C5: whenever the funding estimator returns without error its result is
at least the policy floor allowance.Funds × fileContractMinimumFunding /
allowance.Hosts, and for fixed host pricing, fees and renewal history the
estimate is monotonically non-decreasing in the contract's stored data
size. -/
theorem estimator_floor_and_monotone (k : Consts) (hdb : Nat → Option Host)
    (rf : List (Nat × Nat)) (oc : List (Nat × RenterContract)) (currentPeriod : Nat)
    (contract : RenterContract) (allowance : Allowance) (est : Nat)
    (h : managedEstimateRenewFundingRequirements k hdb rf oc currentPeriod
      contract allowance = some est) :
    allowance.funds * k.minimumFundingNum / k.minimumFundingDen / allowance.hosts ≤ est
    ∧ ∀ d₁ d₂ e₁ e₂, d₁ ≤ d₂ →
      managedEstimateRenewFundingRequirements k hdb rf oc currentPeriod
        { contract with dataStored := d₁ } allowance = some e₁ →
      managedEstimateRenewFundingRequirements k hdb rf oc currentPeriod
        { contract with dataStored := d₂ } allowance = some e₂ →
      e₁ ≤ e₂ := by
  cases hh : hdb contract.hostPubKey with
  | none =>
    unfold managedEstimateRenewFundingRequirements at h
    rw [hh] at h
    exact absurd h (by simp)
  | some host =>
    by_cases hf : host.filtered
    · unfold managedEstimateRenewFundingRequirements at h
      rw [hh] at h
      simp [hf] at h
    · have hf' : host.filtered = false := by simpa using hf
      rw [managedEstimate_eq k hdb rf oc currentPeriod contract allowance host hh hf'] at h
      constructor
      · rw [← Option.some_inj.mp h]
        exact estimateCostBody_floor k host allowance _ _ _
      · intro d₁ d₂ e₁ e₂ hd h₁ h₂
        rw [managedEstimate_eq k hdb rf oc currentPeriod
          { contract with dataStored := d₁ } allowance host hh hf'] at h₁
        rw [managedEstimate_eq k hdb rf oc currentPeriod
          { contract with dataStored := d₂ } allowance host hh hf'] at h₂
        rw [← Option.some_inj.mp h₁, ← Option.some_inj.mp h₂]
        exact estimateCostBody_mono k host allowance _ _ hd

/-- Sample constants for witnesses. -/
def kSample : Consts :=
  { sectorSize := 4, renewalThresholdNum := 3, renewalThresholdDen := 100
    uploadThresholdNum := 3, uploadThresholdDen := 100
    consecutiveRenewalsBeforeReplacement := 12
    minimumFundingNum := 15, minimumFundingDen := 100
    taxNum := 39, taxDen := 1000, maxTxnFee := 2
    estimatedFileContractTransactionSetSize := 10 }

/-- Sample host for witnesses. -/
def hostSample : Host :=
  { filtered := false, storagePrice := 1, uploadBandwidthPrice := 1
    downloadBandwidthPrice := 1, contractPrice := 5, maxDuration := 200
    offline := false, score := some 50 }

/-- Sample contract for witnesses. -/
def contractSample : RenterContract :=
  { id := 1, hostPubKey := 7, startHeight := 10, endHeight := 110
    renterFunds := 500, totalCost := 1000, uploadSpending := 20
    downloadSpending := 10, dataStored := 30
    utility := { goodForUpload := true, goodForRenew := true, locked := false } }

/-- Sample allowance for witnesses. -/
def allowanceSample : Allowance :=
  { funds := 10000, hosts := 5, period := 100, renewWindow := 20 }

/-- Sample hostdb for witnesses. -/
def hdbSample : Nat → Option Host := fun pk => if pk = 7 then some hostSample else none

/-- Witness for C5 at a concrete estimator input. -/
theorem estimator_floor_and_monotone_witness :
    managedEstimateRenewFundingRequirements kSample hdbSample [] [] 0
      contractSample allowanceSample = some 7001
    ∧ (allowanceSample.funds * kSample.minimumFundingNum / kSample.minimumFundingDen
        / allowanceSample.hosts ≤ 7001
      ∧ ∀ d₁ d₂ e₁ e₂, d₁ ≤ d₂ →
        managedEstimateRenewFundingRequirements kSample hdbSample [] [] 0
          { contractSample with dataStored := d₁ } allowanceSample = some e₁ →
        managedEstimateRenewFundingRequirements kSample hdbSample [] [] 0
          { contractSample with dataStored := d₂ } allowanceSample = some e₂ →
        e₁ ≤ e₂) :=
  ⟨by decide, estimator_floor_and_monotone kSample hdbSample [] [] 0
    contractSample allowanceSample 7001 (by decide)⟩

/-- Total upload spending of a list of contracts. -/
def sumUp (l : List RenterContract) : Nat :=
  (l.map RenterContract.uploadSpending).sum

/-- Total download spending of a list of contracts. -/
def sumDown (l : List RenterContract) : Nat :=
  (l.map RenterContract.downloadSpending).sum

theorem walkSpending_eq_includedPreds (rf : List (Nat × Nat))
    (oc : List (Nat × RenterContract)) (p : Nat) :
    ∀ fuel id u d, walkSpending rf oc p fuel id (u, d)
      = (u + sumUp (includedPreds rf oc p fuel id),
         d + sumDown (includedPreds rf oc p fuel id)) := by
  intro fuel
  induction fuel with
  | zero => intro id u d; simp [walkSpending, includedPreds, sumUp, sumDown]
  | succ n ih =>
    intro id u d
    cases hl : List.lookup id rf with
    | none => simp [walkSpending, includedPreds, hl, sumUp, sumDown]
    | some pid =>
      cases ho : List.lookup pid oc with
      | none => simp [walkSpending, includedPreds, hl, ho, sumUp, sumDown]
      | some prev =>
        by_cases hs : prev.startHeight < p
        · simp [walkSpending, includedPreds, hl, ho, hs, sumUp, sumDown]
        · simp only [walkSpending, includedPreds, hl, ho, if_neg hs]
          rw [ih]
          simp [sumUp, sumDown, Prod.ext_iff]
          omega

theorem includedPreds_mem (rf : List (Nat × Nat))
    (oc : List (Nat × RenterContract)) (p : Nat) :
    ∀ fuel id pc, pc ∈ includedPreds rf oc p fuel id →
      p ≤ pc.startHeight ∧ ∃ pid, List.lookup pid oc = some pc := by
  intro fuel
  induction fuel with
  | zero => intro id pc h; simp [includedPreds] at h
  | succ n ih =>
    intro id pc h
    cases hl : List.lookup id rf with
    | none => simp [includedPreds, hl] at h
    | some pid =>
      cases ho : List.lookup pid oc with
      | none => simp [includedPreds, hl, ho] at h
      | some prev =>
        by_cases hs : prev.startHeight < p
        · simp [includedPreds, hl, ho, hs] at h
        · simp only [includedPreds, hl, ho, if_neg hs] at h
          rcases List.mem_cons.mp h with h | h
          · subst h; exact ⟨by omega, pid, ho⟩
          · exact ih pid pc h

theorem includedPreds_length_le (rf : List (Nat × Nat))
    (oc : List (Nat × RenterContract)) (p : Nat) :
    ∀ fuel id, (includedPreds rf oc p fuel id).length ≤ fuel := by
  intro fuel
  induction fuel with
  | zero => intro id; simp [includedPreds]
  | succ n ih =>
    intro id
    cases hl : List.lookup id rf with
    | none => simp [includedPreds, hl]
    | some pid =>
      cases ho : List.lookup pid oc with
      | none => simp [includedPreds, hl, ho]
      | some prev =>
        by_cases hs : prev.startHeight < p
        · simp [includedPreds, hl, ho, hs]
        · simp only [includedPreds, hl, ho, if_neg hs, List.length_cons]
          exact Nat.succ_le_succ (ih pid)

/-- C7: the funding estimator accumulates prior spending by walking the
renewedFrom chain backward: the walk result is the contract's own spending
plus the spending of the included predecessors; every included predecessor
is present in oldContracts and starts at or after currentPeriod; at most
`fuel` predecessors are included (the estimator calls the walk with fuel
10000); and the walk stops immediately, including nothing, at a missing
predecessor link, a predecessor absent from oldContracts, or a predecessor
starting before currentPeriod. -/
theorem estimator_walk_characterization (rf : List (Nat × Nat))
    (oc : List (Nat × RenterContract)) (currentPeriod : Nat) :
    (∀ fuel id u d, walkSpending rf oc currentPeriod fuel id (u, d)
        = (u + sumUp (includedPreds rf oc currentPeriod fuel id),
           d + sumDown (includedPreds rf oc currentPeriod fuel id)))
    ∧ (∀ fuel id pc, pc ∈ includedPreds rf oc currentPeriod fuel id →
        currentPeriod ≤ pc.startHeight ∧ ∃ pid, List.lookup pid oc = some pc)
    ∧ (∀ fuel id, (includedPreds rf oc currentPeriod fuel id).length ≤ fuel)
    ∧ (∀ fuel id, List.lookup id rf = none →
        includedPreds rf oc currentPeriod fuel id = [])
    ∧ (∀ fuel id pid, List.lookup id rf = some pid → List.lookup pid oc = none →
        includedPreds rf oc currentPeriod fuel id = [])
    ∧ (∀ fuel id pid pc, List.lookup id rf = some pid →
        List.lookup pid oc = some pc → pc.startHeight < currentPeriod →
        includedPreds rf oc currentPeriod fuel id = []) := by
  refine ⟨walkSpending_eq_includedPreds rf oc currentPeriod,
    includedPreds_mem rf oc currentPeriod,
    includedPreds_length_le rf oc currentPeriod, ?_, ?_, ?_⟩
  · intro fuel id h
    cases fuel with
    | zero => simp [includedPreds]
    | succ n => simp [includedPreds, h]
  · intro fuel id pid h₁ h₂
    cases fuel with
    | zero => simp [includedPreds]
    | succ n => simp [includedPreds, h₁, h₂]
  · intro fuel id pid pc h₁ h₂ h₃
    cases fuel with
    | zero => simp [includedPreds]
    | succ n => simp [includedPreds, h₁, h₂, h₃]

/-- Sample in-period predecessor for the walk witness. -/
def predSampleA : RenterContract :=
  { contractSample with id := 2, startHeight := 6, uploadSpending := 7, downloadSpending := 9 }

/-- Sample out-of-period predecessor for the walk witness. -/
def predSampleB : RenterContract :=
  { contractSample with id := 3, startHeight := 3, uploadSpending := 100, downloadSpending := 100 }

/-- Witness for C7: on a two-link chain whose second predecessor starts
before the current period, the walk includes the first predecessor only. -/
theorem estimator_walk_characterization_witness :
    ((∀ fuel id u d, walkSpending [(1, 2), (2, 3)] [(2, predSampleA), (3, predSampleB)] 5
        fuel id (u, d)
        = (u + sumUp (includedPreds [(1, 2), (2, 3)] [(2, predSampleA), (3, predSampleB)] 5 fuel id),
           d + sumDown (includedPreds [(1, 2), (2, 3)] [(2, predSampleA), (3, predSampleB)] 5 fuel id)))
    ∧ (∀ fuel id pc, pc ∈ includedPreds [(1, 2), (2, 3)] [(2, predSampleA), (3, predSampleB)] 5 fuel id →
        5 ≤ pc.startHeight ∧ ∃ pid, List.lookup pid [(2, predSampleA), (3, predSampleB)] = some pc)
    ∧ (∀ fuel id, (includedPreds [(1, 2), (2, 3)] [(2, predSampleA), (3, predSampleB)] 5 fuel id).length ≤ fuel)
    ∧ (∀ fuel id, List.lookup id [(1, 2), (2, 3)] = none →
        includedPreds [(1, 2), (2, 3)] [(2, predSampleA), (3, predSampleB)] 5 fuel id = [])
    ∧ (∀ fuel id pid, List.lookup id [(1, 2), (2, 3)] = some pid →
        List.lookup pid [(2, predSampleA), (3, predSampleB)] = none →
        includedPreds [(1, 2), (2, 3)] [(2, predSampleA), (3, predSampleB)] 5 fuel id = [])
    ∧ (∀ fuel id pid pc, List.lookup id [(1, 2), (2, 3)] = some pid →
        List.lookup pid [(2, predSampleA), (3, predSampleB)] = some pc →
        pc.startHeight < 5 →
        includedPreds [(1, 2), (2, 3)] [(2, predSampleA), (3, predSampleB)] 5 fuel id = []))
    ∧ walkSpending [(1, 2), (2, 3)] [(2, predSampleA), (3, predSampleB)] 5 10000 1 (10, 20)
        = (17, 29) :=
  ⟨estimator_walk_characterization [(1, 2), (2, 3)] [(2, predSampleA), (3, predSampleB)] 5,
   by decide⟩

theorem runRenewalList_spend (attemptSpend : FileContractRenewal → Nat)
    (stopAfter : FileContractRenewal → Bool) (phase : Bool)
    (h : ∀ r, attemptSpend r ≤ r.amount) :
    ∀ (l : List FileContractRenewal) (funds : Nat),
      traceSpent (runRenewalList attemptSpend stopAfter phase l funds).2.1 ≤ funds
      ∧ (runRenewalList attemptSpend stopAfter phase l funds).1
          = funds - traceSpent (runRenewalList attemptSpend stopAfter phase l funds).2.1 := by
  intro l
  induction l with
  | nil => intro funds; simp [runRenewalList, traceSpent]
  | cons r rs ih =>
    intro funds
    by_cases haff : funds < r.amount
    · simpa [runRenewalList, haff] using ih funds
    · have hs : attemptSpend r ≤ funds := le_trans (h r) (by omega)
      by_cases hstop : stopAfter r = true
      · simp [runRenewalList, haff, hstop, traceSpent]
        omega
      · have := ih (funds - attemptSpend r)
        simp only [runRenewalList, if_neg haff, hstop, Bool.false_eq_true, if_false,
          traceSpent, List.map_cons, List.sum_cons] at this ⊢
        rcases this with ⟨h₁, h₂⟩
        refine ⟨by omega, by omega⟩

theorem runRenewalList_trace_mem (attemptSpend : FileContractRenewal → Nat)
    (stopAfter : FileContractRenewal → Bool) (phase : Bool) :
    ∀ (l : List FileContractRenewal) (funds : Nat) (e : ExecEntry),
      e ∈ (runRenewalList attemptSpend stopAfter phase l funds).2.1 →
      ∃ r ∈ l, r.id = e.id ∧ e.spent = attemptSpend r ∧ r.amount ≤ funds
        ∧ e.isRenewPhase = phase := by
  intro l
  induction l with
  | nil => intro funds e he; simp [runRenewalList] at he
  | cons r rs ih =>
    intro funds e he
    by_cases haff : funds < r.amount
    · simp only [runRenewalList, if_pos haff] at he
      obtain ⟨r', hr', hrest⟩ := ih funds e he
      exact ⟨r', List.mem_cons_of_mem _ hr', hrest⟩
    · by_cases hstop : stopAfter r = true
      · simp [runRenewalList, haff, hstop] at he
        subst he
        exact ⟨r, List.mem_cons_self _ _, rfl, rfl, by omega, rfl⟩
      · simp only [runRenewalList, if_neg haff, hstop, Bool.false_eq_true, if_false,
          List.mem_cons] at he
        rcases he with he | he
        · subst he
          exact ⟨r, List.mem_cons_self _ _, rfl, rfl, by omega, rfl⟩
        · obtain ⟨r', hr', h₁, h₂, h₃, h₄⟩ := ih (funds - attemptSpend r) e he
          exact ⟨r', List.mem_cons_of_mem _ hr', h₁, h₂, by omega, h₄⟩

theorem runRenewalList_phase (attemptSpend : FileContractRenewal → Nat)
    (stopAfter : FileContractRenewal → Bool) (phase : Bool) :
    ∀ (l : List FileContractRenewal) (funds : Nat) (e : ExecEntry),
      e ∈ (runRenewalList attemptSpend stopAfter phase l funds).2.1 →
      e.isRenewPhase = phase := by
  intro l funds e he
  obtain ⟨r, _, _, _, _, h⟩ := runRenewalList_trace_mem attemptSpend stopAfter phase l funds e he
  exact h

theorem runRenewalList_considered (attemptSpend : FileContractRenewal → Nat)
    (stopAfter : FileContractRenewal → Bool) (phase : Bool) :
    ∀ (l : List FileContractRenewal) (funds : Nat),
      (runRenewalList attemptSpend stopAfter phase l funds).2.2.2 = false →
      (runRenewalList attemptSpend stopAfter phase l funds).2.2.1
        = l.map FileContractRenewal.id := by
  intro l
  induction l with
  | nil => intro funds _; simp [runRenewalList]
  | cons r rs ih =>
    intro funds hni
    by_cases haff : funds < r.amount
    · simp only [runRenewalList, if_pos haff] at hni ⊢
      rw [List.map_cons, ih funds hni]
    · by_cases hstop : stopAfter r = true
      · simp [runRenewalList, haff, hstop] at hni
      · simp only [runRenewalList, if_neg haff, hstop, Bool.false_eq_true, if_false] at hni ⊢
        rw [List.map_cons, ih _ hni]

/-- C1: during one maintenance pass, budgeted execution never spends more
than allowance.Funds − totalAllocated (taken as zero when allocation meets
or exceeds the allowance): the trace's total spend is bounded by the
initial remaining funds, the final remaining funds equal the initial funds
minus the total spend (each executed item's actual spend is deducted
before the next item), and every attempted item comes from one of the two
work sets with an amount that fit within the funds remaining when it was
attempted (in particular within the initial remainder) — any item whose
amount exceeds the funds remaining at its turn is skipped, never attempted.
The hypothesis reflects managedRenewContract, which spends either the full
requested amount or nothing. -/
theorem budgeted_execution_spend_bound (attemptSpend : FileContractRenewal → Nat)
    (stopAfter : FileContractRenewal → Bool)
    (renewSet refreshSet : List FileContractRenewal)
    (allowanceFunds totalAllocated : Nat)
    (h : ∀ r, attemptSpend r ≤ r.amount) :
    traceSpent (runBudgetedExecution attemptSpend stopAfter renewSet refreshSet
        allowanceFunds totalAllocated).2
      ≤ (if totalAllocated < allowanceFunds then allowanceFunds - totalAllocated else 0)
    ∧ (runBudgetedExecution attemptSpend stopAfter renewSet refreshSet
        allowanceFunds totalAllocated).1
      = (if totalAllocated < allowanceFunds then allowanceFunds - totalAllocated else 0)
        - traceSpent (runBudgetedExecution attemptSpend stopAfter renewSet refreshSet
            allowanceFunds totalAllocated).2
    ∧ ∀ e ∈ (runBudgetedExecution attemptSpend stopAfter renewSet refreshSet
        allowanceFunds totalAllocated).2,
        ∃ r, (r ∈ renewSet ∨ r ∈ refreshSet) ∧ r.id = e.id ∧ e.spent = attemptSpend r
          ∧ r.amount ≤ (if totalAllocated < allowanceFunds
              then allowanceFunds - totalAllocated else 0) := by
  set funds₀ := (if totalAllocated < allowanceFunds then allowanceFunds - totalAllocated else 0)
    with hf₀
  obtain ⟨hs₁, hr₁⟩ := runRenewalList_spend attemptSpend stopAfter true h renewSet funds₀
  by_cases hint : (runRenewalList attemptSpend stopAfter true renewSet funds₀).2.2.2 = true
  · simp only [runBudgetedExecution, ← hf₀, hint, if_true]
    refine ⟨hs₁, hr₁, ?_⟩
    intro e he
    obtain ⟨r, hr, h₁, h₂, h₃, _⟩ :=
      runRenewalList_trace_mem attemptSpend stopAfter true renewSet funds₀ e he
    exact ⟨r, Or.inl hr, h₁, h₂, h₃⟩
  · obtain ⟨hs₂, hr₂⟩ := runRenewalList_spend attemptSpend stopAfter false h refreshSet
      (runRenewalList attemptSpend stopAfter true renewSet funds₀).1
    simp only [runBudgetedExecution, ← hf₀, hint, if_false, Bool.false_eq_true]
    have htot : traceSpent ((runRenewalList attemptSpend stopAfter true renewSet funds₀).2.1
        ++ (runRenewalList attemptSpend stopAfter false refreshSet
            (runRenewalList attemptSpend stopAfter true renewSet funds₀).1).2.1)
        = traceSpent (runRenewalList attemptSpend stopAfter true renewSet funds₀).2.1
          + traceSpent (runRenewalList attemptSpend stopAfter false refreshSet
              (runRenewalList attemptSpend stopAfter true renewSet funds₀).1).2.1 := by
      simp [traceSpent]
    rw [htot]
    refine ⟨by omega, by omega, ?_⟩
    intro e he
    rcases List.mem_append.mp he with he | he
    · obtain ⟨r, hr, h₁, h₂, h₃, _⟩ :=
        runRenewalList_trace_mem attemptSpend stopAfter true renewSet funds₀ e he
      exact ⟨r, Or.inl hr, h₁, h₂, h₃⟩
    · obtain ⟨r, hr, h₁, h₂, h₃, _⟩ :=
        runRenewalList_trace_mem attemptSpend stopAfter false refreshSet
          (runRenewalList attemptSpend stopAfter true renewSet funds₀).1 e he
      exact ⟨r, Or.inr hr, h₁, h₂, by omega⟩

/-- Attempt outcome that always succeeds, spending the full amount. -/
def idSpend : FileContractRenewal → Nat := fun r => r.amount

/-- No interrupt or stop signal is ever delivered. -/
def noStop : FileContractRenewal → Bool := fun _ => false

/-- Witness for C1: a renewSet whose total exceeds the remaining funds has
its tail item skipped; total spend 90 stays within the remainder 100. -/
theorem budgeted_execution_spend_bound_witness :
    (∀ r : FileContractRenewal, idSpend r ≤ r.amount)
    ∧ (traceSpent (runBudgetedExecution idSpend noStop [⟨1, 60⟩, ⟨2, 60⟩] [⟨3, 30⟩] 150 50).2
        ≤ (if 50 < 150 then 150 - 50 else 0)
      ∧ (runBudgetedExecution idSpend noStop [⟨1, 60⟩, ⟨2, 60⟩] [⟨3, 30⟩] 150 50).1
        = (if 50 < 150 then 150 - 50 else 0)
          - traceSpent (runBudgetedExecution idSpend noStop [⟨1, 60⟩, ⟨2, 60⟩] [⟨3, 30⟩] 150 50).2
      ∧ ∀ e ∈ (runBudgetedExecution idSpend noStop [⟨1, 60⟩, ⟨2, 60⟩] [⟨3, 30⟩] 150 50).2,
          ∃ r, (r ∈ [(⟨1, 60⟩ : FileContractRenewal), ⟨2, 60⟩] ∨ r ∈ [(⟨3, 30⟩ : FileContractRenewal)])
            ∧ r.id = e.id ∧ e.spent = idSpend r
            ∧ r.amount ≤ (if 50 < 150 then 150 - 50 else 0)) :=
  ⟨fun _ => le_rfl,
   budgeted_execution_spend_bound idSpend noStop [⟨1, 60⟩, ⟨2, 60⟩] [⟨3, 30⟩] 150 50
     (fun _ => le_rfl)⟩

/-- C8: in the budgeted execution phase, every renewSet item is considered
(attempted or skipped) before any refreshSet item: the attempt trace is the
renew-phase trace followed by the refresh-phase trace, and if any
refresh-phase item was attempted then the renew loop ran to completion,
having considered every renewSet item. -/
theorem renew_before_refresh (attemptSpend : FileContractRenewal → Nat)
    (stopAfter : FileContractRenewal → Bool)
    (renewSet refreshSet : List FileContractRenewal)
    (allowanceFunds totalAllocated : Nat) :
    (∀ e ∈ (runRenewalList attemptSpend stopAfter true renewSet
        (if totalAllocated < allowanceFunds then allowanceFunds - totalAllocated else 0)).2.1,
      e.isRenewPhase = true)
    ∧ ((runBudgetedExecution attemptSpend stopAfter renewSet refreshSet
          allowanceFunds totalAllocated).2
        = (runRenewalList attemptSpend stopAfter true renewSet
            (if totalAllocated < allowanceFunds then allowanceFunds - totalAllocated else 0)).2.1
        ∨ ∃ t₂, (runBudgetedExecution attemptSpend stopAfter renewSet refreshSet
              allowanceFunds totalAllocated).2
            = (runRenewalList attemptSpend stopAfter true renewSet
                (if totalAllocated < allowanceFunds then allowanceFunds - totalAllocated else 0)).2.1
              ++ t₂
          ∧ (∀ e ∈ t₂, e.isRenewPhase = false))
    ∧ (∀ e ∈ (runBudgetedExecution attemptSpend stopAfter renewSet refreshSet
          allowanceFunds totalAllocated).2,
        e.isRenewPhase = false →
        (runRenewalList attemptSpend stopAfter true renewSet
            (if totalAllocated < allowanceFunds then allowanceFunds - totalAllocated else 0)).2.2.1
          = renewSet.map FileContractRenewal.id) := by
  set funds₀ := (if totalAllocated < allowanceFunds then allowanceFunds - totalAllocated else 0)
    with hf₀
  refine ⟨runRenewalList_phase attemptSpend stopAfter true renewSet funds₀, ?_, ?_⟩
  · by_cases hint : (runRenewalList attemptSpend stopAfter true renewSet funds₀).2.2.2 = true
    · left
      simp [runBudgetedExecution, ← hf₀, hint]
    · right
      refine ⟨(runRenewalList attemptSpend stopAfter false refreshSet
          (runRenewalList attemptSpend stopAfter true renewSet funds₀).1).2.1, ?_,
        runRenewalList_phase attemptSpend stopAfter false refreshSet _⟩
      simp [runBudgetedExecution, ← hf₀, hint]
  · intro e he hph
    by_cases hint : (runRenewalList attemptSpend stopAfter true renewSet funds₀).2.2.2 = true
    · simp only [runBudgetedExecution, ← hf₀, hint, if_true] at he
      have := runRenewalList_phase attemptSpend stopAfter true renewSet funds₀ e he
      rw [this] at hph
      exact absurd hph (by simp)
    · exact runRenewalList_considered attemptSpend stopAfter true renewSet funds₀
        (by simpa using hint)

/-- Witness for C8 is not needed for hypotheses, but gives a concrete run:
with scarce funds the renew item is attempted before the refresh item. -/
theorem renew_before_refresh_witness :
    ((∀ e ∈ (runRenewalList idSpend noStop true [⟨1, 60⟩]
        (if 0 < 100 then 100 - 0 else 0)).2.1, e.isRenewPhase = true)
    ∧ ((runBudgetedExecution idSpend noStop [⟨1, 60⟩] [⟨2, 30⟩] 100 0).2
        = (runRenewalList idSpend noStop true [⟨1, 60⟩]
            (if 0 < 100 then 100 - 0 else 0)).2.1
        ∨ ∃ t₂, (runBudgetedExecution idSpend noStop [⟨1, 60⟩] [⟨2, 30⟩] 100 0).2
            = (runRenewalList idSpend noStop true [⟨1, 60⟩]
                (if 0 < 100 then 100 - 0 else 0)).2.1 ++ t₂
          ∧ (∀ e ∈ t₂, e.isRenewPhase = false))
    ∧ (∀ e ∈ (runBudgetedExecution idSpend noStop [⟨1, 60⟩] [⟨2, 30⟩] 100 0).2,
        e.isRenewPhase = false →
        (runRenewalList idSpend noStop true [⟨1, 60⟩]
            (if 0 < 100 then 100 - 0 else 0)).2.2.1
          = [(⟨1, 60⟩ : FileContractRenewal)].map FileContractRenewal.id))
    ∧ (runBudgetedExecution idSpend noStop [⟨1, 60⟩] [⟨2, 30⟩] 100 0).2
        = [⟨true, 1, 60⟩, ⟨false, 2, 30⟩] :=
  ⟨renew_before_refresh idSpend noStop [⟨1, 60⟩] [⟨2, 30⟩] 100 0, by decide⟩

theorem buildSets_renew_mem (k : Consts) (hdb : Nat → Option Host)
    (utilityOf : Nat → Option ContractUtility) (estimate : RenterContract → Option Nat)
    (blockHeight : Nat) (allowance : Allowance) :
    ∀ (cs : List RenterContract) (i a : Nat),
      ((⟨i, a⟩ : FileContractRenewal)
          ∈ (buildSets k hdb utilityOf estimate blockHeight allowance cs).1
      ↔ ∃ c ∈ cs, c.id = i
          ∧ planContract k hdb utilityOf estimate blockHeight allowance c
            = PlanAction.renew a) := by
  intro cs
  induction cs with
  | nil => intro i a; simp [buildSets]
  | cons c cs ih =>
    intro i a
    cases hp : planContract k hdb utilityOf estimate blockHeight allowance c with
    | renew b =>
      simp only [buildSets, hp, List.mem_cons, ih]
      constructor
      · rintro (he | ⟨c', hc', h₁, h₂⟩)
        · refine ⟨c, Or.inl rfl, ?_, ?_⟩
          · injection he with h₁ h₂; omega
          · injection he with h₁ h₂; rw [hp, h₂]
        · exact ⟨c', Or.inr hc', h₁, h₂⟩
      · rintro ⟨c', hc' | hc', h₁, h₂⟩
        · subst hc'
          rw [hp] at h₂
          injection h₂ with h₂
          left
          rw [← h₁, ← h₂]
        · exact Or.inr ⟨c', hc', h₁, h₂⟩
    | refresh b =>
      simp only [buildSets, hp, ih, List.mem_cons]
      constructor
      · rintro ⟨c', hc', h₁, h₂⟩
        exact ⟨c', Or.inr hc', h₁, h₂⟩
      · rintro ⟨c', hc' | hc', h₁, h₂⟩
        · subst hc'; rw [hp] at h₂; exact absurd h₂ (by simp)
        · exact ⟨c', hc', h₁, h₂⟩
    | skip =>
      simp only [buildSets, hp, ih, List.mem_cons]
      constructor
      · rintro ⟨c', hc', h₁, h₂⟩
        exact ⟨c', Or.inr hc', h₁, h₂⟩
      · rintro ⟨c', hc' | hc', h₁, h₂⟩
        · subst hc'; rw [hp] at h₂; exact absurd h₂ (by simp)
        · exact ⟨c', hc', h₁, h₂⟩

theorem buildSets_refresh_mem (k : Consts) (hdb : Nat → Option Host)
    (utilityOf : Nat → Option ContractUtility) (estimate : RenterContract → Option Nat)
    (blockHeight : Nat) (allowance : Allowance) :
    ∀ (cs : List RenterContract) (i a : Nat),
      ((⟨i, a⟩ : FileContractRenewal)
          ∈ (buildSets k hdb utilityOf estimate blockHeight allowance cs).2
      ↔ ∃ c ∈ cs, c.id = i
          ∧ planContract k hdb utilityOf estimate blockHeight allowance c
            = PlanAction.refresh a) := by
  intro cs
  induction cs with
  | nil => intro i a; simp [buildSets]
  | cons c cs ih =>
    intro i a
    cases hp : planContract k hdb utilityOf estimate blockHeight allowance c with
    | refresh b =>
      simp only [buildSets, hp, List.mem_cons, ih]
      constructor
      · rintro (he | ⟨c', hc', h₁, h₂⟩)
        · refine ⟨c, Or.inl rfl, ?_, ?_⟩
          · injection he with h₁ h₂; omega
          · injection he with h₁ h₂; rw [hp, h₂]
        · exact ⟨c', Or.inr hc', h₁, h₂⟩
      · rintro ⟨c', hc' | hc', h₁, h₂⟩
        · subst hc'
          rw [hp] at h₂
          injection h₂ with h₂
          left
          rw [← h₁, ← h₂]
        · exact Or.inr ⟨c', hc', h₁, h₂⟩
    | renew b =>
      simp only [buildSets, hp, ih, List.mem_cons]
      constructor
      · rintro ⟨c', hc', h₁, h₂⟩
        exact ⟨c', Or.inr hc', h₁, h₂⟩
      · rintro ⟨c', hc' | hc', h₁, h₂⟩
        · subst hc'; rw [hp] at h₂; exact absurd h₂ (by simp)
        · exact ⟨c', hc', h₁, h₂⟩
    | skip =>
      simp only [buildSets, hp, ih, List.mem_cons]
      constructor
      · rintro ⟨c', hc', h₁, h₂⟩
        exact ⟨c', Or.inr hc', h₁, h₂⟩
      · rintro ⟨c', hc' | hc', h₁, h₂⟩
        · subst hc'; rw [hp] at h₂; exact absurd h₂ (by simp)
        · exact ⟨c', hc', h₁, h₂⟩

theorem nodup_id_unique {cs : List RenterContract}
    (hnodup : (cs.map RenterContract.id).Nodup) {c c' : RenterContract}
    (hc : c ∈ cs) (hc' : c' ∈ cs) (hid : c'.id = c.id) : c' = c :=
  List.inj_on_of_nodup_map hnodup hc' hc hid

theorem planContract_in_window (k : Consts) (hdb : Nat → Option Host)
    (utilityOf : Nat → Option ContractUtility) (estimate : RenterContract → Option Nat)
    (blockHeight : Nat) (allowance : Allowance) (c : RenterContract)
    (u : ContractUtility)
    (hhost : ((hdb c.hostPubKey).getD defaultHost).filtered = false)
    (hu : utilityOf c.id = some u) (hg : u.goodForRenew = true)
    (hw : c.endHeight ≤ blockHeight + allowance.renewWindow) :
    planContract k hdb utilityOf estimate blockHeight allowance c
      = match estimate c with
        | none => PlanAction.skip
        | some amt => PlanAction.renew amt := by
  unfold planContract
  simp [hhost, hu, hg, hw]

theorem planContract_out_of_window (k : Consts) (hdb : Nat → Option Host)
    (utilityOf : Nat → Option ContractUtility) (estimate : RenterContract → Option Nat)
    (blockHeight : Nat) (allowance : Allowance) (c : RenterContract)
    (u : ContractUtility)
    (hhost : ((hdb c.hostPubKey).getD defaultHost).filtered = false)
    (hu : utilityOf c.id = some u) (hg : u.goodForRenew = true)
    (hw : blockHeight + allowance.renewWindow < c.endHeight) :
    planContract k hdb utilityOf estimate blockHeight allowance c
      = if c.renterFunds < sectorPrice k allowance.period ((hdb c.hostPubKey).getD defaultHost) * 3
          ∨ belowFraction k.renewalThresholdNum k.renewalThresholdDen
              c.renterFunds c.totalCost = true
        then PlanAction.refresh (c.totalCost * 2) else PlanAction.skip := by
  unfold planContract
  simp [hhost, hu, hg, show ¬(c.endHeight ≤ blockHeight + allowance.renewWindow) by omega]

/-- C4: for every live contract that is not filtered and has
GoodForRenew=true, one planning pass classifies it into exactly one of:
(a) inside the renew window it is appended to the renewSet with the
estimator's amount, or to neither set if estimation errors; (b) outside
the window with funds low (below 3 sector-equivalents or below the fixed
renewal threshold) it is appended to the refreshSet with twice its total
cost; (c) otherwise it is placed in neither set. No contract id appears in
both sets in one pass. -/
theorem planner_classification (k : Consts) (hdb : Nat → Option Host)
    (utilityOf : Nat → Option ContractUtility) (estimate : RenterContract → Option Nat)
    (blockHeight : Nat) (allowance : Allowance) (cs : List RenterContract)
    (hnodup : (cs.map RenterContract.id).Nodup)
    (c : RenterContract) (hc : c ∈ cs)
    (hhost : ((hdb c.hostPubKey).getD defaultHost).filtered = false)
    (u : ContractUtility) (hu : utilityOf c.id = some u) (hg : u.goodForRenew = true) :
    (c.endHeight ≤ blockHeight + allowance.renewWindow →
      (∀ amt, estimate c = some amt →
        (⟨c.id, amt⟩ : FileContractRenewal)
          ∈ (buildSets k hdb utilityOf estimate blockHeight allowance cs).1)
      ∧ (estimate c = none →
        (∀ a, (⟨c.id, a⟩ : FileContractRenewal)
          ∉ (buildSets k hdb utilityOf estimate blockHeight allowance cs).1)
        ∧ (∀ a, (⟨c.id, a⟩ : FileContractRenewal)
          ∉ (buildSets k hdb utilityOf estimate blockHeight allowance cs).2)))
    ∧ (blockHeight + allowance.renewWindow < c.endHeight →
      ((c.renterFunds < sectorPrice k allowance.period ((hdb c.hostPubKey).getD defaultHost) * 3
          ∨ belowFraction k.renewalThresholdNum k.renewalThresholdDen
              c.renterFunds c.totalCost = true) →
        (⟨c.id, c.totalCost * 2⟩ : FileContractRenewal)
          ∈ (buildSets k hdb utilityOf estimate blockHeight allowance cs).2)
      ∧ (¬(c.renterFunds < sectorPrice k allowance.period ((hdb c.hostPubKey).getD defaultHost) * 3
          ∨ belowFraction k.renewalThresholdNum k.renewalThresholdDen
              c.renterFunds c.totalCost = true) →
        (∀ a, (⟨c.id, a⟩ : FileContractRenewal)
          ∉ (buildSets k hdb utilityOf estimate blockHeight allowance cs).1)
        ∧ (∀ a, (⟨c.id, a⟩ : FileContractRenewal)
          ∉ (buildSets k hdb utilityOf estimate blockHeight allowance cs).2)))
    ∧ (∀ a b, ¬((⟨c.id, a⟩ : FileContractRenewal)
          ∈ (buildSets k hdb utilityOf estimate blockHeight allowance cs).1
        ∧ (⟨c.id, b⟩ : FileContractRenewal)
          ∈ (buildSets k hdb utilityOf estimate blockHeight allowance cs).2)) := by
  refine ⟨?_, ?_, ?_⟩
  · intro hw
    have hp := planContract_in_window k hdb utilityOf estimate blockHeight allowance c u
      hhost hu hg hw
    constructor
    · intro amt he
      rw [he] at hp
      exact (buildSets_renew_mem k hdb utilityOf estimate blockHeight allowance cs
        c.id amt).mpr ⟨c, hc, rfl, hp⟩
    · intro he
      rw [he] at hp
      constructor
      · intro a ha
        obtain ⟨c', hc', hid, hpl⟩ :=
          (buildSets_renew_mem k hdb utilityOf estimate blockHeight allowance cs
            c.id a).mp ha
        rw [nodup_id_unique hnodup hc hc' hid, hp] at hpl
        exact absurd hpl (by simp)
      · intro a ha
        obtain ⟨c', hc', hid, hpl⟩ :=
          (buildSets_refresh_mem k hdb utilityOf estimate blockHeight allowance cs
            c.id a).mp ha
        rw [nodup_id_unique hnodup hc hc' hid, hp] at hpl
        exact absurd hpl (by simp)
  · intro hw
    have hp := planContract_out_of_window k hdb utilityOf estimate blockHeight allowance c u
      hhost hu hg hw
    constructor
    · intro hlow
      rw [if_pos hlow] at hp
      exact (buildSets_refresh_mem k hdb utilityOf estimate blockHeight allowance cs
        c.id (c.totalCost * 2)).mpr ⟨c, hc, rfl, hp⟩
    · intro hlow
      rw [if_neg hlow] at hp
      constructor
      · intro a ha
        obtain ⟨c', hc', hid, hpl⟩ :=
          (buildSets_renew_mem k hdb utilityOf estimate blockHeight allowance cs
            c.id a).mp ha
        rw [nodup_id_unique hnodup hc hc' hid, hp] at hpl
        exact absurd hpl (by simp)
      · intro a ha
        obtain ⟨c', hc', hid, hpl⟩ :=
          (buildSets_refresh_mem k hdb utilityOf estimate blockHeight allowance cs
            c.id a).mp ha
        rw [nodup_id_unique hnodup hc hc' hid, hp] at hpl
        exact absurd hpl (by simp)
  · rintro a b ⟨ha, hb⟩
    obtain ⟨c₁, hc₁, hid₁, hpl₁⟩ :=
      (buildSets_renew_mem k hdb utilityOf estimate blockHeight allowance cs c.id a).mp ha
    obtain ⟨c₂, hc₂, hid₂, hpl₂⟩ :=
      (buildSets_refresh_mem k hdb utilityOf estimate blockHeight allowance cs c.id b).mp hb
    rw [nodup_id_unique hnodup hc hc₁ hid₁] at hpl₁
    rw [nodup_id_unique hnodup hc hc₂ hid₂] at hpl₂
    rw [hpl₁] at hpl₂
    exact absurd hpl₂ (by simp)

/-- Sample low-funds contract for the planner witness: 2% of total cost
remaining against a 3% threshold, outside the renew window. -/
def refreshSampleContract : RenterContract :=
  { contractSample with id := 4, renterFunds := 2, totalCost := 100, endHeight := 1000 }

/-- Sample zero-price host keeping the sector-equivalent check inert. -/
def zeroPriceHost : Host :=
  { hostSample with storagePrice := 0, uploadBandwidthPrice := 0, downloadBandwidthPrice := 0 }

/-- Witness for C4: the 2%-remaining contract is added to the refreshSet
with amount twice its total cost. -/
theorem planner_classification_witness :
    (⟨4, 200⟩ : FileContractRenewal)
      ∈ (buildSets kSample (fun _ => some zeroPriceHost)
          (fun _ => some { goodForUpload := true, goodForRenew := true, locked := false })
          (fun _ => none) 10 allowanceSample [refreshSampleContract]).2 :=
  ((planner_classification kSample (fun _ => some zeroPriceHost)
      (fun _ => some { goodForUpload := true, goodForRenew := true, locked := false })
      (fun _ => none) 10 allowanceSample [refreshSampleContract] (by decide)
      refreshSampleContract (by decide) (by decide) _ rfl rfl).2.1
    (by decide)).1 (by decide)

theorem viewContract_cons (c : RenterContract) (cs : List RenterContract) (id : Nat) :
    viewContract (c :: cs) id = if c.id = id then some c else viewContract cs id := by
  by_cases h : c.id = id <;> simp [viewContract, List.find?_cons, h]

theorem viewContract_id {cs : List RenterContract} {id : Nat} {c : RenterContract}
    (h : viewContract cs id = some c) : c.id = id := by
  have := List.find?_some h
  simpa using this

theorem viewContract_setUtility (cs : List RenterContract) (x : Nat)
    (u : ContractUtility) (id : Nat) :
    viewContract (setUtility cs x u) id
      = (viewContract cs id).map
          (fun c => if c.id = x then { c with utility := u } else c) := by
  induction cs with
  | nil => simp [viewContract, setUtility]
  | cons c cs ih =>
    have hhead : setUtility (c :: cs) x u
        = (if c.id = x then { c with utility := u } else c) :: setUtility cs x u := by
      by_cases hx : c.id = x <;> simp [setUtility, hx]
    by_cases hx : c.id = x <;> by_cases h : c.id = id
    · subst hx; subst h; simp [hhead, viewContract_cons, ih]
    · subst hx; simp [hhead, viewContract_cons, h, ih]
    · subst h; simp [hhead, viewContract_cons, hx, ih]
    · simp [hhead, viewContract_cons, hx, h, ih]

theorem viewContract_deleteContract (cs : List RenterContract) (x id : Nat) :
    viewContract (deleteContract cs x) id
      = if id = x then none else viewContract cs id := by
  induction cs with
  | nil => simp [viewContract, deleteContract]
  | cons c cs ih =>
    by_cases hcx : c.id = x
    · rw [show deleteContract (c :: cs) x = deleteContract cs x by
        simp [deleteContract, hcx]]
      rw [ih]
      by_cases hix : id = x
      · simp [hix]
      · rw [if_neg hix, if_neg hix, viewContract_cons, if_neg (by omega)]
    · rw [show deleteContract (c :: cs) x = c :: deleteContract cs x by
        simp [deleteContract, hcx]]
      rw [viewContract_cons, viewContract_cons, ih]
      by_cases hci : c.id = id
      · rw [if_pos hci, if_pos hci, if_neg (by omega)]
      · rw [if_neg hci, if_neg hci]

theorem view_set_set_delete (cs : List RenterContract) (nc : RenterContract)
    (rid : Nat) (u₁ u₂ : ContractUtility) :
    ∀ id, viewContract (deleteContract
        (setUtility (setUtility (nc :: cs) nc.id u₁) rid u₂) rid) id
      = if id = rid then none
        else (viewContract (nc :: cs) id).map
          (fun c => if c.id = nc.id then { c with utility := u₁ } else c) := by
  intro id
  rw [viewContract_deleteContract]
  by_cases hr : id = rid
  · simp [hr]
  · rw [if_neg hr, if_neg hr, viewContract_setUtility, viewContract_setUtility]
    cases hv : viewContract (nc :: cs) id with
    | none => simp
    | some c =>
      have hc : c.id = id := viewContract_id hv
      simp only [Option.map_some']
      have hproj : (if c.id = nc.id then { c with utility := u₁ } else c).id = c.id := by
        by_cases h : c.id = nc.id <;> simp [h]
      rw [if_neg (by rw [hproj, hc]; exact hr)]

theorem lookup_bumpFailedRenews (m : List (Nat × Nat)) (id j : Nat) :
    List.lookup j (bumpFailedRenews m id)
      = if j = id then some ((List.lookup id m).getD 0 + 1) else List.lookup j m := by
  by_cases h : j = id
  · simp [bumpFailedRenews, h]
  · simp [bumpFailedRenews, List.lookup, beq_eq_false_iff_ne.mpr h, h]

theorem managedRenewContract_failure_eq (k : Consts) (st : ContractorState)
    (r : FileContractRenewal) (allowance : Allowance) (blockHeight : Nat)
    (out : RenewOutcome) (oldContract : RenterContract)
    (hview : viewContract st.contracts r.id = some oldContract)
    (hgfr : oldContract.utility.goodForRenew = true)
    (hout : out.newContract = none) :
    managedRenewContract k st r allowance blockHeight out
      = (if ((List.lookup r.id (if out.hostFault then bumpFailedRenews st.numFailedRenews r.id
                else st.numFailedRenews)).isSome = true
            ∧ oldContract.endHeight ≤ blockHeight + allowance.renewWindow / 2
            ∧ k.consecutiveRenewalsBeforeReplacement
              ≤ (List.lookup r.id (if out.hostFault then bumpFailedRenews st.numFailedRenews r.id
                  else st.numFailedRenews)).getD 0)
        then (0, { st with
                contracts := setUtility st.contracts r.id
                  { goodForUpload := false, goodForRenew := false, locked := true }
                numFailedRenews := if out.hostFault then bumpFailedRenews st.numFailedRenews r.id
                  else st.numFailedRenews }, true)
        else (0, { st with
                numFailedRenews := if out.hostFault then bumpFailedRenews st.numFailedRenews r.id
                  else st.numFailedRenews }, true)) := by
  unfold managedRenewContract
  rw [hview]
  simp [hgfr, hout]

/-- C6: on every failed renewal attempt no money is spent and an error is
returned; the consecutive-failure counter for the contract is incremented
exactly when the failure is the host's fault, and no other contract's
counter changes; the contract's utility is demoted to
{GoodForUpload:false, GoodForRenew:false, Locked:true} exactly when the
updated failure count has reached the replacement threshold and the height
is past the midpoint of the renew window; in every other failure case the
live contracts are untouched; and the failure path changes no history map,
no archive and does not persist. The threshold hypothesis reflects
consecutiveRenewalsBeforeReplacement, a positive constant. -/
theorem renew_failure_blacklist_policy (k : Consts) (st : ContractorState)
    (r : FileContractRenewal) (allowance : Allowance) (blockHeight : Nat)
    (out : RenewOutcome) (oldContract : RenterContract)
    (hview : viewContract st.contracts r.id = some oldContract)
    (hgfr : oldContract.utility.goodForRenew = true)
    (hout : out.newContract = none)
    (hthresh : 1 ≤ k.consecutiveRenewalsBeforeReplacement) :
    (managedRenewContract k st r allowance blockHeight out).1 = 0
    ∧ (managedRenewContract k st r allowance blockHeight out).2.2 = true
    ∧ (List.lookup r.id
        (managedRenewContract k st r allowance blockHeight out).2.1.numFailedRenews).getD 0
      = (List.lookup r.id st.numFailedRenews).getD 0 + (if out.hostFault then 1 else 0)
    ∧ (∀ id, id ≠ r.id →
        List.lookup id (managedRenewContract k st r allowance blockHeight out).2.1.numFailedRenews
          = List.lookup id st.numFailedRenews)
    ∧ ((k.consecutiveRenewalsBeforeReplacement
          ≤ (List.lookup r.id
              (managedRenewContract k st r allowance blockHeight out).2.1.numFailedRenews).getD 0
        ∧ oldContract.endHeight ≤ blockHeight + allowance.renewWindow / 2) →
        (managedRenewContract k st r allowance blockHeight out).2.1.contracts
          = setUtility st.contracts r.id
              { goodForUpload := false, goodForRenew := false, locked := true })
    ∧ (¬(k.consecutiveRenewalsBeforeReplacement
          ≤ (List.lookup r.id
              (managedRenewContract k st r allowance blockHeight out).2.1.numFailedRenews).getD 0
        ∧ oldContract.endHeight ≤ blockHeight + allowance.renewWindow / 2) →
        (managedRenewContract k st r allowance blockHeight out).2.1.contracts = st.contracts)
    ∧ (managedRenewContract k st r allowance blockHeight out).2.1.renewedFrom = st.renewedFrom
    ∧ (managedRenewContract k st r allowance blockHeight out).2.1.renewedTo = st.renewedTo
    ∧ (managedRenewContract k st r allowance blockHeight out).2.1.oldContracts = st.oldContracts
    ∧ (managedRenewContract k st r allowance blockHeight out).2.1.saveCount = st.saveCount := by
  have hmain := managedRenewContract_failure_eq k st r allowance blockHeight out
    oldContract hview hgfr hout
  have hsome : ∀ (o : Option Nat), 1 ≤ o.getD 0 → o.isSome = true := by
    intro o ho
    cases o with
    | none => simp at ho
    | some v => rfl
  have hcnt : List.lookup r.id (if out.hostFault then bumpFailedRenews st.numFailedRenews r.id
        else st.numFailedRenews)
      = if out.hostFault then some ((List.lookup r.id st.numFailedRenews).getD 0 + 1)
        else List.lookup r.id st.numFailedRenews := by
    by_cases hf : out.hostFault <;> simp [hf, lookup_bumpFailedRenews]
  rw [hmain]
  by_cases hψ : ((List.lookup r.id (if out.hostFault then bumpFailedRenews st.numFailedRenews r.id
        else st.numFailedRenews)).isSome = true
      ∧ oldContract.endHeight ≤ blockHeight + allowance.renewWindow / 2
      ∧ k.consecutiveRenewalsBeforeReplacement
        ≤ (List.lookup r.id (if out.hostFault then bumpFailedRenews st.numFailedRenews r.id
            else st.numFailedRenews)).getD 0)
  · rw [if_pos hψ]
    refine ⟨rfl, rfl, ?_, ?_, ?_, ?_, rfl, rfl, rfl, rfl⟩
    · rw [hcnt]
      by_cases hf : out.hostFault <;> simp [hf]
    · intro id hid
      by_cases hf : out.hostFault <;> simp [hf, lookup_bumpFailedRenews, hid]
    · intro _; rfl
    · intro hcon
      exact absurd ⟨hψ.2.2, hψ.2.1⟩ hcon
  · rw [if_neg hψ]
    refine ⟨rfl, rfl, ?_, ?_, ?_, ?_, rfl, rfl, rfl, rfl⟩
    · rw [hcnt]
      by_cases hf : out.hostFault <;> simp [hf]
    · intro id hid
      by_cases hf : out.hostFault <;> simp [hf, lookup_bumpFailedRenews, hid]
    · intro hcon
      exact absurd ⟨hsome _ (le_trans hthresh hcon.1), hcon.2, hcon.1⟩ hψ
    · intro _; rfl

/-- Sample contractor state with one live contract ready for renewal. -/
def stSample : ContractorState :=
  { contracts := [contractSample], oldContracts := [], renewedFrom := []
    renewedTo := [], pubKeysToContractID := [(7, 1)]
    numFailedRenews := [(1, 11)], saveCount := 0 }

/-- Witness for C6: a host-fault failure at the replacement threshold and
past the window midpoint demotes the contract to locked; state is
otherwise untouched. -/
theorem renew_failure_blacklist_policy_witness :
    (List.lookup 1 (managedRenewContract kSample stSample ⟨1, 50⟩ allowanceSample 101
        ⟨none, true⟩).2.1.numFailedRenews).getD 0
      = (List.lookup 1 stSample.numFailedRenews).getD 0 + (if (true : Bool) then 1 else 0)
    ∧ (managedRenewContract kSample stSample ⟨1, 50⟩ allowanceSample 101
        ⟨none, true⟩).2.1.contracts
      = setUtility stSample.contracts 1
          { goodForUpload := false, goodForRenew := false, locked := true } :=
  ⟨(renew_failure_blacklist_policy kSample stSample ⟨1, 50⟩ allowanceSample 101
      ⟨none, true⟩ contractSample (by decide) (by decide) rfl (by decide)).2.2.1,
   (renew_failure_blacklist_policy kSample stSample ⟨1, 50⟩ allowanceSample 101
      ⟨none, true⟩ contractSample (by decide) (by decide) rfl (by decide)).2.2.2.2.1
     (by decide)⟩

theorem managedRenewContract_success_eq (k : Consts) (st : ContractorState)
    (r : FileContractRenewal) (allowance : Allowance) (blockHeight : Nat)
    (out : RenewOutcome) (nc oldContract : RenterContract)
    (hview : viewContract st.contracts r.id = some oldContract)
    (hgfr : oldContract.utility.goodForRenew = true)
    (hout : out.newContract = some nc) :
    managedRenewContract k st r allowance blockHeight out
      = (r.amount,
         { st with
           contracts := deleteContract
             (setUtility (setUtility (nc :: st.contracts) nc.id
                { goodForUpload := true, goodForRenew := true, locked := false }) r.id
                { goodForUpload := false, goodForRenew := false, locked := true }) r.id
           pubKeysToContractID := (nc.hostPubKey, nc.id) :: st.pubKeysToContractID
           renewedFrom := (nc.id, r.id) :: st.renewedFrom
           renewedTo := (r.id, nc.id) :: st.renewedTo
           oldContracts := (r.id, { oldContract with
             utility := { goodForUpload := false, goodForRenew := false, locked := true } })
             :: st.oldContracts
           saveCount := st.saveCount + 1 },
         false) := by
  unfold managedRenewContract
  rw [hview]
  simp [hgfr, hout]

/-- C2: for every successful renewal of an old contract into a new one,
exactly one new contract id is created (the live ids afterward are the new
id plus the old live ids minus the renewed one); renewedFrom[new] = old
and renewedTo[old] = new hold afterward; the old contract's metadata
(with demoted utility) is moved into oldContracts and the old contract is
deleted from the live set; the new contract's utility is
{GoodForUpload:true, GoodForRenew:true}; the old contract's archived
utility is {GoodForUpload:false, GoodForRenew:false, Locked:true}; and the
contractor state is persisted (one saveSync). Freshness of the new id
reflects that negotiation produces a brand-new file contract id. -/
theorem renew_success_postconditions (k : Consts) (st : ContractorState)
    (r : FileContractRenewal) (allowance : Allowance) (blockHeight : Nat)
    (out : RenewOutcome) (nc oldContract : RenterContract)
    (hview : viewContract st.contracts r.id = some oldContract)
    (hgfr : oldContract.utility.goodForRenew = true)
    (hout : out.newContract = some nc)
    (hfresh : viewContract st.contracts nc.id = none)
    (hne : nc.id ≠ r.id) :
    (managedRenewContract k st r allowance blockHeight out).2.2 = false
    ∧ (managedRenewContract k st r allowance blockHeight out).1 = r.amount
    ∧ List.lookup nc.id
        (managedRenewContract k st r allowance blockHeight out).2.1.renewedFrom = some r.id
    ∧ List.lookup r.id
        (managedRenewContract k st r allowance blockHeight out).2.1.renewedTo = some nc.id
    ∧ List.lookup r.id
        (managedRenewContract k st r allowance blockHeight out).2.1.oldContracts
      = some { oldContract with
          utility := { goodForUpload := false, goodForRenew := false, locked := true } }
    ∧ viewContract (managedRenewContract k st r allowance blockHeight out).2.1.contracts r.id
      = none
    ∧ viewContract (managedRenewContract k st r allowance blockHeight out).2.1.contracts nc.id
      = some { nc with
          utility := { goodForUpload := true, goodForRenew := true, locked := false } }
    ∧ (managedRenewContract k st r allowance blockHeight out).2.1.saveCount = st.saveCount + 1
    ∧ (∀ id, id ≠ r.id → id ≠ nc.id →
        viewContract (managedRenewContract k st r allowance blockHeight out).2.1.contracts id
          = viewContract st.contracts id)
    ∧ (∀ id, (viewContract
          (managedRenewContract k st r allowance blockHeight out).2.1.contracts id).isSome
        ↔ (id = nc.id ∨ ((viewContract st.contracts id).isSome ∧ id ≠ r.id))) := by
  have hmain := managedRenewContract_success_eq k st r allowance blockHeight out
    nc oldContract hview hgfr hout
  have hvc := view_set_set_delete st.contracts nc r.id
    { goodForUpload := true, goodForRenew := true, locked := false }
    { goodForUpload := false, goodForRenew := false, locked := true }
  rw [hmain]
  refine ⟨rfl, rfl, by simp [List.lookup], by simp [List.lookup], by simp [List.lookup],
    ?_, ?_, rfl, ?_, ?_⟩
  · rw [hvc, if_pos rfl]
  · rw [hvc, if_neg hne, viewContract_cons]
    simp
  · intro id hr hnc
    rw [hvc, if_neg hr, viewContract_cons, if_neg (fun h => hnc h.symm)]
    cases hv : viewContract st.contracts id with
    | none => simp
    | some c =>
      have hc : c.id = id := viewContract_id hv
      simp only [Option.map_some']
      rw [if_neg (by rw [hc]; exact fun h => hnc h)]
  · intro id
    rw [hvc]
    by_cases hr : id = r.id
    · rw [if_pos hr]
      simp only [Option.isSome_none, Bool.false_eq_true, false_iff]
      push_neg
      exact ⟨by omega, fun _ => hr⟩
    · rw [if_neg hr, viewContract_cons]
      by_cases hnc : nc.id = id
      · rw [if_pos hnc]
        simp [hnc.symm]
      · rw [if_neg hnc]
        have hid : ¬id = nc.id := fun h => hnc h.symm
        cases hv : viewContract st.contracts id with
        | none => simp [hid, hr]
        | some c =>
          have hc : c.id = id := viewContract_id hv
          simp only [Option.map_some']
          rw [if_neg (by rw [hc]; exact hid)]
          simp [hid, hr]

/-- Sample new contract produced by a successful renewal negotiation. -/
def ncSample : RenterContract :=
  { contractSample with
      id := 9
      startHeight := 101
      endHeight := 210
      utility := { goodForUpload := false, goodForRenew := false, locked := false } }

/-- Witness for C2: after a concrete successful renewal, the history links
hold, the old contract is archived and deleted, and the new contract is
live with good utility. -/
theorem renew_success_postconditions_witness :
    List.lookup 9 (managedRenewContract kSample stSample ⟨1, 50⟩ allowanceSample 101
        ⟨some ncSample, false⟩).2.1.renewedFrom = some 1
    ∧ List.lookup 1 (managedRenewContract kSample stSample ⟨1, 50⟩ allowanceSample 101
        ⟨some ncSample, false⟩).2.1.renewedTo = some 9
    ∧ viewContract (managedRenewContract kSample stSample ⟨1, 50⟩ allowanceSample 101
        ⟨some ncSample, false⟩).2.1.contracts 1 = none
    ∧ viewContract (managedRenewContract kSample stSample ⟨1, 50⟩ allowanceSample 101
        ⟨some ncSample, false⟩).2.1.contracts 9
      = some { ncSample with
          utility := { goodForUpload := true, goodForRenew := true, locked := false } } :=
  ⟨(renew_success_postconditions kSample stSample ⟨1, 50⟩ allowanceSample 101
      ⟨some ncSample, false⟩ ncSample contractSample (by decide) (by decide) rfl
      (by decide) (by decide)).2.2.1,
   (renew_success_postconditions kSample stSample ⟨1, 50⟩ allowanceSample 101
      ⟨some ncSample, false⟩ ncSample contractSample (by decide) (by decide) rfl
      (by decide) (by decide)).2.2.2.1,
   (renew_success_postconditions kSample stSample ⟨1, 50⟩ allowanceSample 101
      ⟨some ncSample, false⟩ ncSample contractSample (by decide) (by decide) rfl
      (by decide) (by decide)).2.2.2.2.2.1,
   (renew_success_postconditions kSample stSample ⟨1, 50⟩ allowanceSample 101
      ⟨some ncSample, false⟩ ncSample contractSample (by decide) (by decide) rfl
      (by decide) (by decide)).2.2.2.2.2.2.1⟩

theorem utilityRatchet_refl {u : ContractUtility} (hl : u.locked = true) :
    utilityRatchet u u :=
  ⟨hl, fun h => h, fun h => h⟩

theorem utilityRatchet_trans {a b c : ContractUtility}
    (h₁ : utilityRatchet a b) (h₂ : utilityRatchet b c) : utilityRatchet a c :=
  ⟨h₂.1, fun h => h₁.2.1 (h₂.2.1 h), fun h => h₁.2.2 (h₂.2.2 h)⟩

theorem markContractUtility_ratchet (k : Consts) (hdb : Nat → Option Host)
    (minScore blockHeight renewWindow period : Nat) (c : RenterContract)
    (u : ContractUtility) (hl : c.utility.locked = true)
    (h : markContractUtility k hdb minScore blockHeight renewWindow period c = some u) :
    utilityRatchet c.utility u := by
  unfold markContractUtility at h
  simp only [hl, Bool.not_true, Bool.false_eq_true, if_false] at h
  cases hh : hdb c.hostPubKey with
  | none =>
    simp only [hh] at h
    injection h with h
    exact ⟨by rw [← h]; exact hl, by rw [← h]; simp, by rw [← h]; simp⟩
  | some host =>
    simp only [hh] at h
    by_cases hf : host.filtered
    · simp only [hf, if_true] at h
      injection h with h
      exact ⟨by rw [← h]; exact hl, by rw [← h]; simp, by rw [← h]; simp⟩
    · simp only [hf, Bool.false_eq_true, if_false] at h
      cases hsc : host.score with
      | none => simp only [hsc] at h; exact absurd h (by simp)
      | some score =>
        simp only [hsc] at h
        by_cases h₁ : minScore ≠ 0 ∧ score < minScore
        · rw [if_pos h₁] at h
          injection h with h
          exact ⟨by rw [← h]; exact hl, by rw [← h]; simp, by rw [← h]; simp⟩
        · rw [if_neg h₁] at h
          by_cases h₂ : host.offline
          · simp only [h₂, if_true] at h
            injection h with h
            exact ⟨by rw [← h]; exact hl, by rw [← h]; simp, by rw [← h]; simp⟩
          · simp only [h₂, Bool.false_eq_true, if_false] at h
            by_cases h₃ : c.endHeight ≤ blockHeight + renewWindow
            · rw [if_pos h₃] at h
              injection h with h
              exact ⟨by rw [← h]; exact hl, by rw [← h]; simp, by rw [← h]; simp⟩
            · rw [if_neg h₃] at h
              by_cases h₄ : c.renterFunds < sectorPrice k period host * 3
                  ∨ belowFraction k.uploadThresholdNum k.uploadThresholdDen
                      c.renterFunds c.totalCost = true
              · rw [if_pos h₄] at h
                injection h with h
                exact ⟨by rw [← h]; exact hl, by rw [← h]; simp, by rw [← h]; simp⟩
              · rw [if_neg h₄] at h
                injection h with h
                exact h ▸ utilityRatchet_refl hl

theorem classifyAll_view (k : Consts) (hdb : Nat → Option Host)
    (minScore blockHeight renewWindow period : Nat) :
    ∀ (cs : List RenterContract) (id : Nat) (c : RenterContract),
      viewContract cs id = some c →
      ∃ c', viewContract
          (classifyAll k hdb minScore blockHeight renewWindow period cs).1 id = some c'
        ∧ (c' = c ∨ ∃ u, markContractUtility k hdb minScore blockHeight renewWindow period c
            = some u ∧ c' = { c with utility := u }) := by
  intro cs
  induction cs with
  | nil => intro id c h; simp [viewContract] at h
  | cons c₀ cs ih =>
    intro id c h
    rw [viewContract_cons] at h
    cases hm : markContractUtility k hdb minScore blockHeight renewWindow period c₀ with
    | none =>
      refine ⟨c, ?_, Or.inl rfl⟩
      simp only [classifyAll, hm]
      rw [viewContract_cons]
      exact h
    | some u =>
      by_cases h₀ : c₀.id = id
      · rw [if_pos h₀] at h
        injection h with h
        subst h
        refine ⟨{ c₀ with utility := u }, ?_, Or.inr ⟨u, hm, rfl⟩⟩
        simp only [classifyAll, hm]
        rw [viewContract_cons]
        simp [h₀]
      · rw [if_neg h₀] at h
        obtain ⟨c', hv', hrel⟩ := ih id c h
        refine ⟨c', ?_, hrel⟩
        simp only [classifyAll, hm]
        rw [viewContract_cons, if_neg h₀]
        exact hv'

theorem dupStep_view (acc : ContractorState × List (Nat × Nat))
    (contract : RenterContract) (id : Nat) (c : RenterContract)
    (h : viewContract (dupStep acc contract).1.contracts id = some c) :
    viewContract acc.1.contracts id = some c := by
  unfold dupStep at h
  cases hp : List.lookup contract.hostPubKey acc.2 with
  | none => simpa [hp] using h
  | some i =>
    simp only [hp] at h
    cases hv : viewContract acc.1.contracts i with
    | none => simpa [hv] using h
    | some rc =>
      simp only [hv] at h
      cases hv₂ : viewContract acc.1.contracts
          (if contract.startHeight ≤ rc.startHeight then (rc, contract)
            else (contract, rc)).2.id with
      | none => simpa [hv₂] using h
      | some oldSC =>
        simp only [hv₂] at h
        rw [viewContract_deleteContract] at h
        by_cases hid : id = (if contract.startHeight ≤ rc.startHeight then (rc, contract)
            else (contract, rc)).2.id
        · rw [if_pos hid] at h; exact absurd h (by simp)
        · rwa [if_neg hid] at h

theorem foldl_dupStep_view (l : List RenterContract) :
    ∀ (acc : ContractorState × List (Nat × Nat)) (id : Nat) (c : RenterContract),
      viewContract (l.foldl dupStep acc).1.contracts id = some c →
      viewContract acc.1.contracts id = some c := by
  induction l with
  | nil => intro acc id c h; simpa using h
  | cons x l ih =>
    intro acc id c h
    exact dupStep_view acc x id c (ih (dupStep acc x) id c h)

theorem formContractsStep_none (st : ContractorState)
    (fundsRemaining initialContractFunds : Nat) (host : Host)
    (maxStoragePrice period : Nat) :
    (formContractsStep st fundsRemaining initialContractFunds host
      maxStoragePrice period none).2 = st := by
  by_cases h₀ : fundsRemaining < initialContractFunds
  · simp [formContractsStep, h₀]
  · by_cases h₁ : maxStoragePrice < host.storagePrice
    · simp [formContractsStep, managedNewContract, h₀, h₁]
    · by_cases h₂ : host.maxDuration < period
      · simp [formContractsStep, managedNewContract, h₀, h₁, h₂]
      · simp [formContractsStep, managedNewContract, h₀, h₁, h₂]

theorem formContractsStep_some_contracts (st : ContractorState)
    (fundsRemaining initialContractFunds : Nat) (host : Host)
    (maxStoragePrice period : Nat) (nc : RenterContract) :
    (formContractsStep st fundsRemaining initialContractFunds host
      maxStoragePrice period (some nc)).2.contracts = st.contracts
    ∨ (formContractsStep st fundsRemaining initialContractFunds host
      maxStoragePrice period (some nc)).2.contracts
      = setUtility (nc :: st.contracts) nc.id
          { goodForUpload := true, goodForRenew := true, locked := false } := by
  by_cases h₀ : fundsRemaining < initialContractFunds
  · left; simp [formContractsStep, h₀]
  · by_cases h₁ : maxStoragePrice < host.storagePrice
    · left; simp [formContractsStep, managedNewContract, h₀, h₁]
    · by_cases h₂ : host.maxDuration < period
      · left; simp [formContractsStep, managedNewContract, h₀, h₁, h₂]
      · by_cases h₃ : (List.lookup nc.hostPubKey st.pubKeysToContractID).isSome
        · left; simp [formContractsStep, managedNewContract, h₀, h₁, h₂, h₃]
        · right; simp [formContractsStep, managedNewContract, h₀, h₁, h₂, h₃]

theorem engineStep_ratchet (st : ContractorState) (op : EngineOp)
    (hwf : wfOp st op = true) (id : Nat) (c c' : RenterContract)
    (hl : c.utility.locked = true)
    (hb : viewContract st.contracts id = some c)
    (ha : viewContract (engineStep st op).contracts id = some c') :
    utilityRatchet c.utility c'.utility := by
  cases op with
  | classify k hdb minScore blockHeight renewWindow period =>
    simp only [engineStep] at ha
    obtain ⟨c₁, hv₁, hrel⟩ :=
      classifyAll_view k hdb minScore blockHeight renewWindow period st.contracts id c hb
    rw [ha] at hv₁
    injection hv₁ with hv₁
    subst hv₁
    rcases hrel with rfl | ⟨u, hm, rfl⟩
    · exact utilityRatchet_refl hl
    · exact markContractUtility_ratchet k hdb minScore blockHeight renewWindow period c u hl hm
  | renewAttempt k r allowance blockHeight out =>
    simp only [engineStep] at ha
    cases hview : viewContract st.contracts r.id with
    | none =>
      unfold managedRenewContract at ha
      simp only [hview] at ha
      rw [hb] at ha
      injection ha with ha
      subst ha
      exact utilityRatchet_refl hl
    | some oldContract =>
      by_cases hgfr : oldContract.utility.goodForRenew
      · cases hout : out.newContract with
        | none =>
          have hgfr' : oldContract.utility.goodForRenew = true := hgfr
          have heq := managedRenewContract_failure_eq k st r allowance blockHeight out
            oldContract hview hgfr' hout
          have hmain : (managedRenewContract k st r allowance blockHeight out).2.1.contracts
              = setUtility st.contracts r.id
                  { goodForUpload := false, goodForRenew := false, locked := true }
              ∨ (managedRenewContract k st r allowance blockHeight out).2.1.contracts
              = st.contracts := by
            rw [heq]
            by_cases hψ : ((List.lookup r.id (if out.hostFault
                  then bumpFailedRenews st.numFailedRenews r.id
                  else st.numFailedRenews)).isSome = true
                ∧ oldContract.endHeight ≤ blockHeight + allowance.renewWindow / 2
                ∧ k.consecutiveRenewalsBeforeReplacement
                  ≤ (List.lookup r.id (if out.hostFault
                      then bumpFailedRenews st.numFailedRenews r.id
                      else st.numFailedRenews)).getD 0)
            · rw [if_pos hψ]; left; rfl
            · rw [if_neg hψ]; right; rfl
          rcases hmain with hm | hm
          · rw [hm, viewContract_setUtility, hb] at ha
            simp only [Option.map_some'] at ha
            injection ha with ha
            subst ha
            by_cases hcr : c.id = r.id
            · rw [if_pos hcr]
              exact ⟨rfl, by simp, by simp⟩
            · rw [if_neg hcr]
              exact utilityRatchet_refl hl
          · rw [hm, hb] at ha
            injection ha with ha
            subst ha
            exact utilityRatchet_refl hl
        | some nc =>
          have hgfr' : oldContract.utility.goodForRenew = true := hgfr
          have heq := managedRenewContract_success_eq k st r allowance blockHeight out
            nc oldContract hview hgfr' hout
          have hmain : (managedRenewContract k st r allowance blockHeight out).2.1.contracts
              = deleteContract
                  (setUtility (setUtility (nc :: st.contracts) nc.id
                    { goodForUpload := true, goodForRenew := true, locked := false }) r.id
                    { goodForUpload := false, goodForRenew := false, locked := true }) r.id := by
            rw [heq]
          rw [hmain, view_set_set_delete] at ha
          have hncid : ¬id = nc.id := by
            intro hcontra
            have : viewContract st.contracts nc.id = none := by
              simp only [wfOp, hout] at hwf
              have := (Bool.and_eq_true _ _).mp hwf
              simpa using this.1
            rw [hcontra, this] at hb
            exact absurd hb (by simp)
          by_cases hr : id = r.id
          · rw [if_pos hr] at ha; exact absurd ha (by simp)
          · rw [if_neg hr, viewContract_cons, if_neg (fun h => hncid h.symm), hb] at ha
            simp only [Option.map_some'] at ha
            have hcid : c.id = id := viewContract_id hb
            rw [if_neg (by rw [hcid]; exact hncid)] at ha
            injection ha with ha
            subst ha
            exact utilityRatchet_refl hl
      · unfold managedRenewContract at ha
        simp only [hview, hgfr] at ha
        simp only [Bool.false_eq_true, if_false, not_false_eq_true, if_true] at ha
        rw [hb] at ha
        injection ha with ha
        subst ha
        exact utilityRatchet_refl hl
  | checkDuplicates =>
    simp only [engineStep, managedCheckForDuplicates] at ha
    have := foldl_dupStep_view st.contracts (st, []) id c' ha
    rw [hb] at this
    injection this with this
    subst this
    exact utilityRatchet_refl hl
  | formContract fundsRemaining initialContractFunds host maxStoragePrice period negotiated =>
    simp only [engineStep] at ha
    cases hneg : negotiated with
    | none =>
      have hmain : (formContractsStep st fundsRemaining initialContractFunds host
          maxStoragePrice period negotiated).2 = st := by
        subst hneg
        exact formContractsStep_none st fundsRemaining initialContractFunds host
          maxStoragePrice period
      rw [hmain, hb] at ha
      injection ha with ha
      subst ha
      exact utilityRatchet_refl hl
    | some nc =>
      have hncid : ¬id = nc.id := by
        intro hcontra
        have : viewContract st.contracts nc.id = none := by
          simp only [wfOp, hneg] at hwf
          simpa using hwf
        rw [hcontra, this] at hb
        exact absurd hb (by simp)
      have hmain : (formContractsStep st fundsRemaining initialContractFunds host
            maxStoragePrice period negotiated).2.contracts = st.contracts
          ∨ (formContractsStep st fundsRemaining initialContractFunds host
            maxStoragePrice period negotiated).2.contracts
            = setUtility (nc :: st.contracts) nc.id
                { goodForUpload := true, goodForRenew := true, locked := false } := by
        subst hneg
        exact formContractsStep_some_contracts st fundsRemaining initialContractFunds host
          maxStoragePrice period nc
      rcases hmain with hm | hm
      · rw [hm, hb] at ha
        injection ha with ha
        subst ha
        exact utilityRatchet_refl hl
      · rw [hm, viewContract_setUtility, viewContract_cons,
          if_neg (fun h => hncid h.symm), hb] at ha
        simp only [Option.map_some'] at ha
        have hcid : c.id = id := viewContract_id hb
        rw [if_neg (by rw [hcid]; exact hncid)] at ha
        injection ha with ha
        subst ha
        exact utilityRatchet_refl hl

theorem survivesRun_head {id : Nat} {st : ContractorState} {ops : List EngineOp}
    (h : survivesRun id st ops = true) : (viewContract st.contracts id).isSome = true := by
  cases ops with
  | nil => simpa [survivesRun] using h
  | cons op ops => exact ((Bool.and_eq_true _ _).mp (by simpa [survivesRun] using h)).1

/-- C3: a contract whose utility is Locked never has GoodForUpload or
GoodForRenew turned back on by any sequence of engine operations
(classifier runs, renewal attempts, duplicate cleanup, new-contract
formation), as long as it is not deleted from the live set; Locked itself
is never cleared. The well-formedness hypothesis states that negotiated
contract ids are fresh. -/
theorem locked_utility_ratchet (st : ContractorState) (ops : List EngineOp)
    (hwf : wfTrace st ops = true) (id : Nat) (c : RenterContract)
    (hb : viewContract st.contracts id = some c)
    (hl : c.utility.locked = true)
    (hs : survivesRun id st ops = true) (c' : RenterContract)
    (ha : viewContract (engineRun st ops).contracts id = some c') :
    c'.utility.locked = true
    ∧ (c'.utility.goodForUpload = true → c.utility.goodForUpload = true)
    ∧ (c'.utility.goodForRenew = true → c.utility.goodForRenew = true) := by
  induction ops generalizing st c with
  | nil =>
    simp only [engineRun, List.foldl_nil] at ha
    rw [hb] at ha
    injection ha with ha
    subst ha
    exact ⟨hl, fun h => h, fun h => h⟩
  | cons op ops ih =>
    have hwf' := (Bool.and_eq_true _ _).mp (by simpa [wfTrace] using hwf)
    have hs' := (Bool.and_eq_true _ _).mp (by simpa [survivesRun] using hs)
    have hs₁ : (viewContract (engineStep st op).contracts id).isSome = true :=
      survivesRun_head hs'.2
    obtain ⟨c₁, hc₁⟩ := Option.isSome_iff_exists.mp hs₁
    have hstep := engineStep_ratchet st op hwf'.1 id c c₁ hl hb hc₁
    have hrest := ih (engineStep st op) hwf'.2 c₁ hc₁ hstep.1 hs'.2
      (by simpa [engineRun, List.foldl_cons] using ha)
    exact ⟨hrest.1, fun h => hstep.2.1 (hrest.2.1 h), fun h => hstep.2.2 (hrest.2.2 h)⟩

/-- Sample locked contract for the ratchet witness. -/
def lockedSampleContract : RenterContract :=
  { contractSample with id := 5
                        utility := { goodForUpload := false, goodForRenew := false, locked := true } }

/-- Sample state holding the locked contract. -/
def stLockedSample : ContractorState :=
  { contracts := [lockedSampleContract], oldContracts := [], renewedFrom := []
    renewedTo := [], pubKeysToContractID := [(7, 5)], numFailedRenews := [], saveCount := 0 }

/-- Witness for C3: after a classifier run over a healthy host, the locked
contract keeps both good flags off and stays locked. -/
theorem locked_utility_ratchet_witness :
    (viewContract (engineRun stLockedSample
        [EngineOp.classify kSample hdbSample 1 10 20 100]).contracts 5).isSome = true
    ∧ ∀ c', viewContract (engineRun stLockedSample
        [EngineOp.classify kSample hdbSample 1 10 20 100]).contracts 5 = some c' →
      c'.utility.locked = true ∧ c'.utility.goodForUpload ≠ true
        ∧ c'.utility.goodForRenew ≠ true :=
  ⟨by decide, fun c' ha =>
    have h := locked_utility_ratchet stLockedSample
      [EngineOp.classify kSample hdbSample 1 10 20 100] (by decide) 5
      lockedSampleContract (by decide) (by decide) (by decide) c' ha
    ⟨h.1, fun hgfu => by simpa [lockedSampleContract, contractSample] using h.2.1 hgfu,
      fun hgfr => by simpa [lockedSampleContract, contractSample] using h.2.2 hgfr⟩⟩

theorem lookup_cons_preserve {α : Type} (m : List (Nat × α)) (kk : Nat) (vv : α)
    (id : Nat) (v : α) (h : List.lookup id m = some v) (hne : id ≠ kk) :
    List.lookup id ((kk, vv) :: m) = some v := by
  simp [List.lookup, beq_eq_false_iff_ne.mpr hne, h]

theorem dupStep_eq_none (acc : ContractorState × List (Nat × Nat))
    (contract : RenterContract)
    (hp : List.lookup contract.hostPubKey acc.2 = none) :
    dupStep acc contract = (acc.1, (contract.hostPubKey, contract.id) :: acc.2) := by
  simp only [dupStep, hp]

theorem dupStep_eq_noview (acc : ContractorState × List (Nat × Nat))
    (contract : RenterContract) (i : Nat)
    (hp : List.lookup contract.hostPubKey acc.2 = some i)
    (hv : viewContract acc.1.contracts i = none) :
    dupStep acc contract = (acc.1, acc.2) := by
  simp only [dupStep, hp, hv]

theorem dupStep_eq_acquirefail (acc : ContractorState × List (Nat × Nat))
    (contract : RenterContract) (i : Nat) (rc : RenterContract)
    (hp : List.lookup contract.hostPubKey acc.2 = some i)
    (hv : viewContract acc.1.contracts i = some rc)
    (hv₂ : viewContract acc.1.contracts
      (if contract.startHeight ≤ rc.startHeight then (rc, contract)
        else (contract, rc)).2.id = none) :
    dupStep acc contract
      = (acc.1, (contract.hostPubKey,
          (if contract.startHeight ≤ rc.startHeight then (rc, contract)
            else (contract, rc)).1.id) :: acc.2) := by
  simp only [dupStep, hp, hv, hv₂]

theorem dupStep_eq_link (acc : ContractorState × List (Nat × Nat))
    (contract : RenterContract) (i : Nat) (rc oldSC : RenterContract)
    (hp : List.lookup contract.hostPubKey acc.2 = some i)
    (hv : viewContract acc.1.contracts i = some rc)
    (hv₂ : viewContract acc.1.contracts
      (if contract.startHeight ≤ rc.startHeight then (rc, contract)
        else (contract, rc)).2.id = some oldSC) :
    dupStep acc contract
      = ({ acc.1 with
            contracts := deleteContract acc.1.contracts
              (if contract.startHeight ≤ rc.startHeight then (rc, contract)
                else (contract, rc)).2.id
            oldContracts := ((if contract.startHeight ≤ rc.startHeight then (rc, contract)
                else (contract, rc)).2.id, oldSC) :: acc.1.oldContracts
            renewedFrom := ((if contract.startHeight ≤ rc.startHeight then (rc, contract)
                else (contract, rc)).1.id,
              (if contract.startHeight ≤ rc.startHeight then (rc, contract)
                else (contract, rc)).2.id) :: acc.1.renewedFrom
            renewedTo := ((if contract.startHeight ≤ rc.startHeight then (rc, contract)
                else (contract, rc)).2.id,
              (if contract.startHeight ≤ rc.startHeight then (rc, contract)
                else (contract, rc)).1.id) :: acc.1.renewedTo
            pubKeysToContractID := ((if contract.startHeight ≤ rc.startHeight then (rc, contract)
                else (contract, rc)).1.hostPubKey,
              (if contract.startHeight ≤ rc.startHeight then (rc, contract)
                else (contract, rc)).1.id) :: acc.1.pubKeysToContractID
            saveCount := acc.1.saveCount + 1 },
         (contract.hostPubKey,
          (if contract.startHeight ≤ rc.startHeight then (rc, contract)
            else (contract, rc)).1.id) :: acc.2) := by
  simp only [dupStep, hp, hv, hv₂]

theorem dupStep_renewedTo (acc : ContractorState × List (Nat × Nat))
    (contract : RenterContract)
    (hinv : ∀ id, (List.lookup id acc.1.renewedTo).isSome = true →
      viewContract acc.1.contracts id = none) :
    (∀ id v, List.lookup id acc.1.renewedTo = some v →
      List.lookup id (dupStep acc contract).1.renewedTo = some v)
    ∧ (∀ id, (List.lookup id (dupStep acc contract).1.renewedTo).isSome = true →
      viewContract (dupStep acc contract).1.contracts id = none) := by
  cases hp : List.lookup contract.hostPubKey acc.2 with
  | none =>
    rw [dupStep_eq_none acc contract hp]
    exact ⟨fun id v h => h, hinv⟩
  | some i =>
    cases hv : viewContract acc.1.contracts i with
    | none =>
      rw [dupStep_eq_noview acc contract i hp hv]
      exact ⟨fun id v h => h, hinv⟩
    | some rc =>
      cases hv₂ : viewContract acc.1.contracts
          (if contract.startHeight ≤ rc.startHeight then (rc, contract)
            else (contract, rc)).2.id with
      | none =>
        rw [dupStep_eq_acquirefail acc contract i rc hp hv hv₂]
        exact ⟨fun id v h => h, hinv⟩
      | some oldSC =>
        rw [dupStep_eq_link acc contract i rc oldSC hp hv hv₂]
        constructor
        · intro id v h
          refine lookup_cons_preserve _ _ _ _ _ h ?_
          intro hcontra
          have := hinv id (by rw [h]; rfl)
          rw [hcontra, hv₂] at this
          exact absurd this (by simp)
        · intro id hsome
          rw [viewContract_deleteContract]
          by_cases hid : id = (if contract.startHeight ≤ rc.startHeight then (rc, contract)
              else (contract, rc)).2.id
          · rw [if_pos hid]
          · rw [if_neg hid]
            refine hinv id ?_
            rw [List.lookup] at hsome
            rwa [beq_eq_false_iff_ne.mpr hid] at hsome

theorem foldl_dupStep_renewedTo (l : List RenterContract) :
    ∀ (acc : ContractorState × List (Nat × Nat)),
      (∀ id, (List.lookup id acc.1.renewedTo).isSome = true →
        viewContract acc.1.contracts id = none) →
      (∀ id v, List.lookup id acc.1.renewedTo = some v →
        List.lookup id ((l.foldl dupStep acc).1).renewedTo = some v)
      ∧ (∀ id, (List.lookup id ((l.foldl dupStep acc).1).renewedTo).isSome = true →
        viewContract ((l.foldl dupStep acc).1).contracts id = none) := by
  induction l with
  | nil => intro acc hinv; exact ⟨fun id v h => h, hinv⟩
  | cons x l ih =>
    intro acc hinv
    obtain ⟨hpres, hinv'⟩ := dupStep_renewedTo acc x hinv
    obtain ⟨hpres', hinv''⟩ := ih (dupStep acc x) hinv'
    exact ⟨fun id v h => hpres' id v (hpres id v h), hinv''⟩

/-- C9 amended: renewedTo entries, once written, are never rewritten by the
duplicate cleanup (under the engine's invariant that renewedTo keys are
never live contract ids), and a renewal commit whose new contract id is
fresh preserves every existing renewedFrom and renewedTo entry; only the
duplicate-contract cleanup can rewrite a renewedFrom entry, when it pairs
a contract against a second same-host duplicate. -/
theorem renewal_linkage_one_shot_amended (st : ContractorState)
    (hdisj : ∀ id, (List.lookup id st.renewedTo).isSome = true →
      viewContract st.contracts id = none) :
    (∀ id v, List.lookup id st.renewedTo = some v →
      List.lookup id (managedCheckForDuplicates st).renewedTo = some v)
    ∧ (∀ (k : Consts) (r : FileContractRenewal) (allowance : Allowance)
        (blockHeight : Nat) (out : RenewOutcome) (nc oldContract : RenterContract),
        viewContract st.contracts r.id = some oldContract →
        oldContract.utility.goodForRenew = true →
        out.newContract = some nc →
        List.lookup nc.id st.renewedFrom = none →
        (∀ id v, List.lookup id st.renewedFrom = some v →
          List.lookup id (managedRenewContract k st r allowance blockHeight out).2.1.renewedFrom
            = some v)
        ∧ (∀ id v, List.lookup id st.renewedTo = some v →
          List.lookup id (managedRenewContract k st r allowance blockHeight out).2.1.renewedTo
            = some v)) := by
  constructor
  · intro id v h
    exact (foldl_dupStep_renewedTo st.contracts (st, []) hdisj).1 id v h
  · intro k r allowance blockHeight out nc oldContract hview hgfr hout hfresh
    rw [managedRenewContract_success_eq k st r allowance blockHeight out nc oldContract
      hview hgfr hout]
    constructor
    · intro id v h
      refine lookup_cons_preserve _ _ _ _ _ h ?_
      intro hcontra
      rw [hcontra, hfresh] at h
      exact absurd h (by simp)
    · intro id v h
      refine lookup_cons_preserve _ _ _ _ _ h ?_
      intro hcontra
      have := hdisj id (by rw [h]; rfl)
      rw [hcontra, hview] at this
      exact absurd this (by simp)

/-- Same-host contract with the later start height, already linked as the
renewal successor of an archived contract 1. -/
def dupContractC : RenterContract :=
  { contractSample with id := 3, startHeight := 3 }

/-- A second live contract with the same host and an earlier start height. -/
def dupContractB : RenterContract :=
  { contractSample with id := 2, startHeight := 2 }

/-- State in which renewedFrom[3] = 1 has already been written and two live
contracts share host 7. -/
def dupStateSample : ContractorState :=
  { contracts := [dupContractC, dupContractB]
    oldContracts := [(1, { contractSample with startHeight := 1 })]
    renewedFrom := [(3, 1)], renewedTo := [(1, 3)]
    pubKeysToContractID := [(7, 3)], numFailedRenews := [], saveCount := 0 }

/-- C9 counterexample: the duplicate-contract cleanup rewrites the
already-written entry renewedFrom[3] from 1 to 2 when it pairs contract 3
against the second same-host contract 2 (the mis-mapping the source's own
TODO at lines 93-99 describes). -/
theorem renewedFrom_rewrite_counterexample :
    List.lookup 3 dupStateSample.renewedFrom = some 1
    ∧ List.lookup 3 (managedCheckForDuplicates dupStateSample).renewedFrom = some 2
    ∧ some 1 ≠ some 2 := by decide

theorem dupStateSample_disj : ∀ id,
    (List.lookup id dupStateSample.renewedTo).isSome = true →
    viewContract dupStateSample.contracts id = none := by
  intro id h
  have h1 : id = 1 := by
    by_cases hid : id = 1
    · exact hid
    · exfalso
      simp [dupStateSample, List.lookup, beq_eq_false_iff_ne.mpr hid] at h
  subst h1
  decide

/-- Witness for the amended C9 at a concrete state: existing renewedTo and
renewedFrom entries survive the cleanup and a fresh renewal commit. -/
theorem renewal_linkage_one_shot_amended_witness :
    List.lookup 1 (managedCheckForDuplicates dupStateSample).renewedTo = some 3
    ∧ List.lookup 3 (managedRenewContract kSample dupStateSample ⟨3, 40⟩
        allowanceSample 101 ⟨some ncSample, false⟩).2.1.renewedFrom = some 1 :=
  ⟨(renewal_linkage_one_shot_amended dupStateSample dupStateSample_disj).1 1 3 (by decide),
   ((renewal_linkage_one_shot_amended dupStateSample dupStateSample_disj).2 kSample ⟨3, 40⟩
      allowanceSample 101 ⟨some ncSample, false⟩ ncSample dupContractC (by decide)
      (by decide) rfl (by decide)).1 3 1 (by decide)⟩

/-- C10: when negotiation succeeds but the pubkey index already holds an
entry for the host, managedNewContract drops the transaction and errors
while reporting fundsSpent equal to the full requested contractFunding;
the gap-filling caller, however, hits `continue` on the error before the
deduction, so its fundsRemaining is unchanged and no contract is added —
money was spent on the host (per the function's own comment) yet the
budget is not reduced. -/
theorem new_contract_duplicate_spend_eval :
    (managedNewContract stSample hostSample 30 1000 100
      (some { contractSample with id := 2 })).1 = 30
    ∧ (managedNewContract stSample hostSample 30 1000 100
      (some { contractSample with id := 2 })).2.2.2.1 = true
    ∧ (managedNewContract stSample hostSample 30 1000 100
      (some { contractSample with id := 2 })).2.2.2.2 = true
    ∧ (managedNewContract stSample hostSample 30 1000 100
      (some { contractSample with id := 2 })).2.2.1
        = stSample
    ∧ (formContractsStep stSample 100 30 hostSample 1000 100
      (some { contractSample with id := 2 })).1 = 100
    ∧ (formContractsStep stSample 100 30 hostSample 1000 100
      (some { contractSample with id := 2 })).2 = stSample := by decide

end Contractor
